import Mathlib

/-!
Verification development for the Tero ACID storage engine
(src/src/acid-engine.ts): a shallow embedding of the JSON value model,
the deep-merge function, the write-ahead log, the lock manager, the
transaction registry and the storage-engine operations, together with
theorems settling the specification claims.

Modelling conventions:
* JavaScript values flowing through the engine are modelled by the
  inductive type JSValue (object / array / string / number / bool / null).
  JS number values are modelled as integers; the engine never performs
  arithmetic on stored values, it only moves them around, so the exact
  numeric type is irrelevant to every claim.
* JS truthiness is modelled by the function truthy; the idiom a or-else b
  from the source is jsOr / jsOrV.
* undefined versus null for optional record fields is modelled with
  Option JSValue: none is an absent field (undefined), some JSValue.null
  is an explicit null.
* A JS exception is modelled as Option.none in pure functions and as an
  error outcome in the engine operations.
* File-system state is a total map from keys to FileContent; a corrupt
  (unparseable) file, an empty file and an absent file are explicit states,
  matching the branches the source takes on them.
* Checksums are not computed: a WAL line is modelled either as a good line
  carrying a parsed, checksum-valid entry, or as a bad line (unparseable
  or checksum-mismatched), which is exactly the distinction every scan in
  the source makes.  Timestamps are informational in the source and are
  omitted.  Log rotation is size-triggered, best-effort and silent in the
  source and is not modelled.
-/

namespace Tero

/-- JSON-shaped JavaScript values as stored and merged by the engine. -/
inductive JSValue where
  | null : JSValue
  | bool (b : Bool) : JSValue
  | num (n : Int) : JSValue
  | str (s : String) : JSValue
  | arr (elems : List JSValue) : JSValue
  | obj (fields : List (String × JSValue)) : JSValue
deriving Repr

/-- JS truthiness of a value (empty string, 0, false, null are falsy;
every object and array, including empty ones, is truthy). -/
def truthy : JSValue → Bool
  | .null => false
  | .bool b => b
  | .num n => n != 0
  | .str s => s ≠ ""
  | .arr _ => true
  | .obj _ => true

/-- Models the JS expression v or-else d applied to a possibly absent
value (for example entry.afterImage or-else the empty object). -/
def jsOr (v : Option JSValue) (d : JSValue) : JSValue :=
  match v with
  | some x => if truthy x then x else d
  | none => d

/-- Models the JS expression v or-else d on a present value
(for example currentData or-else the empty object). -/
def jsOrV (v d : JSValue) : JSValue :=
  if truthy v then v else d

/-- Models the JS test typeof v is object, v not null, v not an array:
true exactly for plain objects. -/
def isPlainObj : JSValue → Bool
  | .obj _ => true
  | _ => false

/-- Whether the value is the JS null (property access on it throws). -/
def isNullV : JSValue → Bool
  | .null => true
  | _ => false

/-- Truthiness of an optional field: a falsy or absent image is skipped
by several recovery branches in the source. -/
def optTruthy (v : Option JSValue) : Bool :=
  match v with
  | some x => truthy x
  | none => false

/-- Own enumerable properties of a value as seen by JS object spread:
the fields of an object, the index-keyed elements of an array, the
index-keyed characters of a string, and nothing for other primitives. -/
def spreadFields : JSValue → List (String × JSValue)
  | .obj fs => fs
  | .arr xs => (xs.enum.map fun p => (toString p.1, p.2))
  | .str s => (s.data.enum.map fun p => (toString p.1, JSValue.str (String.singleton p.2)))
  | _ => []

/-- First-match association lookup on object fields (JS objects have
unique keys, so first and only). -/
def propLookup : List (String × JSValue) → String → Option JSValue
  | [], _ => none
  | (k, v) :: rest, key => if k == key then some v else propLookup rest key

/-- Models property read target[key] on a non-null value: lookup among
the own enumerable properties. -/
def getProp (t : JSValue) (key : String) : Option JSValue :=
  propLookup (spreadFields t) key

/-- Models the JS assignment result[key] = v: overwrite in place if the
key exists (JS keeps the original key position), else append. -/
def setProp : List (String × JSValue) → String → JSValue → List (String × JSValue)
  | [], key, v => [(key, v)]
  | (k, w) :: rest, key, v =>
      if k == key then (k, v) :: rest else (k, w) :: setProp rest key v

mutual

/-- The deepMerge method of ACIDStorageEngine, translated branch by
branch.  The result is none exactly when the JS code would throw: the
source evaluates target[key] whenever source[key] is a plain object, and
property access on null raises a TypeError. -/
def deepMerge (t s : JSValue) : Option JSValue :=
  match s with
  | .null => some t
  | .obj fs => (mergeInto t (spreadFields t) fs).map JSValue.obj
  | .bool b => some (.bool b)
  | .num n => some (.num n)
  | .str st => some (.str st)
  | .arr xs => some (.arr xs)

/-- The for-in loop body of deepMerge: fold the source fields over the
accumulated result (which starts as the spread of the target). -/
def mergeInto (t : JSValue) (acc : List (String × JSValue)) :
    List (String × JSValue) → Option (List (String × JSValue))
  | [] => some acc
  | (k, sv) :: rest =>
      if isPlainObj sv then
        if isNullV t then none
        else
          match getProp t k with
          | some tv =>
            if isPlainObj tv then
              match deepMerge tv sv with
              | some rv => mergeInto t (setProp acc k rv) rest
              | none => none
            else
              mergeInto t (setProp acc k sv) rest
          | none => mergeInto t (setProp acc k sv) rest
      else
        mergeInto t (setProp acc k sv) rest

end

/-- The six WAL operation names. -/
inductive OpName where
  | BEGIN | WRITE | DELETE | COMMIT | ROLLBACK | CHECKPOINT
deriving DecidableEq, Repr

instance : BEq OpName := ⟨fun a b => decide (a = b)⟩

/-- A WAL entry as the engine holds it in memory (interface LogEntry).
The timestamp is informational and omitted; the checksum is modelled at
the line level (see WalLine). -/
structure LogEntry where
  lsn : Nat
  transactionId : String
  operation : OpName
  key : Option String := none
  beforeImage : Option JSValue := none
  afterImage : Option JSValue := none
deriving Repr

/-- A line of the on-disk WAL file: either a parseable line whose
checksum verifies, carrying its entry, or a bad line (unparseable JSON
or checksum mismatch), which every scan in the source skips. -/
inductive WalLine where
  | good (e : LogEntry) : WalLine
  | bad : WalLine
deriving Repr

/-- In-memory state of the WriteAheadLog class: the next-LSN counter,
the unflushed buffer, and the contents of the .wal file. -/
structure WALState where
  currentLSN : Nat
  buffer : List LogEntry
  file : List WalLine
deriving Repr

/-- The entries of a list of WAL file lines that parse and pass the
checksum (the ones every scan keeps). -/
def goodEntries (lines : List WalLine) : List LogEntry :=
  lines.filterMap fun l =>
    match l with
    | .good e => some e
    | .bad => none

/-- WriteAheadLog.flushBuffer: serialize each buffered entry as one line
appended to the log file and clear the buffer.  (The size-triggered,
best-effort log rotation that may follow a flush is not modelled.) -/
def flushBuffer (w : WALState) : WALState :=
  if w.buffer.isEmpty then w
  else { w with file := w.file ++ w.buffer.map WalLine.good, buffer := [] }

/-- The fields of a WAL append request (writeLog takes an entry without
lsn, checksum and timestamp). -/
structure PendingEntry where
  operation : OpName
  transactionId : String
  key : Option String := none
  beforeImage : Option JSValue := none
  afterImage : Option JSValue := none

/-- The buffer threshold BUFFER_SIZE of WriteAheadLog. -/
def BUFFER_SIZE : Nat := 100

/-- WriteAheadLog.writeLog: stamp the next LSN, buffer the entry, and
flush immediately for COMMIT / ROLLBACK or once the buffer reaches
BUFFER_SIZE.  Returns the assigned LSN and the new WAL state. -/
def writeLog (w : WALState) (e : PendingEntry) : Nat × WALState :=
  let lsn := w.currentLSN
  let entry : LogEntry :=
    { lsn := lsn, transactionId := e.transactionId, operation := e.operation,
      key := e.key, beforeImage := e.beforeImage, afterImage := e.afterImage }
  let w1 : WALState :=
    { w with currentLSN := lsn + 1, buffer := w.buffer ++ [entry] }
  if e.operation == .COMMIT || e.operation == .ROLLBACK ||
      BUFFER_SIZE ≤ w1.buffer.length then
    (lsn, flushBuffer w1)
  else
    (lsn, w1)

/-- Ordering of entries by LSN, as used by the sort in getLogEntries. -/
def lsnLE (a b : LogEntry) : Prop := a.lsn ≤ b.lsn

instance : DecidableRel lsnLE := fun a b => Nat.decLe a.lsn b.lsn

instance : IsTotal LogEntry lsnLE := ⟨fun a b => Nat.le_total a.lsn b.lsn⟩

instance : IsTrans LogEntry lsnLE := ⟨fun _ _ _ h h' => Nat.le_trans h h'⟩

/-- The fromLSN filter of getLogEntries: keep the entry when no bound is
given or its LSN is at least the bound (in JS a bound of 0 is falsy and
also keeps everything, which coincides with 0 ≤ lsn). -/
def keepFrom (fromLSN : Option Nat) (e : LogEntry) : Bool :=
  match fromLSN with
  | none => true
  | some f => f ≤ e.lsn

/-- WriteAheadLog.getLogEntries: buffered entries plus checksum-valid
file entries, filtered by the optional fromLSN bound and sorted by LSN. -/
def getLogEntries (w : WALState) (fromLSN : Option Nat) : List LogEntry :=
  List.insertionSort lsnLE
    (w.buffer.filter (keepFrom fromLSN) ++
      (goodEntries w.file).filter (keepFrom fromLSN))

/-- All entries the WAL currently holds, in chronological order (file
then buffer).  This is the flush-invariant view used by the theorems. -/
def walEntries (w : WALState) : List LogEntry :=
  goodEntries w.file ++ w.buffer

/-- WriteAheadLog.clearCommittedTransaction: flush, then drop the
transaction's BEGIN / WRITE / DELETE lines, keeping its COMMIT line as a
marker and keeping bad lines unchanged; rewrite the file only when a
COMMIT of the transaction was found. -/
def clearCommittedTransaction (w : WALState) (txnId : String) : WALState :=
  let w1 := flushBuffer w
  let step := fun (acc : List WalLine × Bool) (line : WalLine) =>
    match line with
    | .bad => (acc.1 ++ [line], acc.2)
    | .good e =>
      if e.transactionId ≠ txnId then (acc.1 ++ [line], acc.2)
      else if e.operation = .COMMIT then (acc.1 ++ [line], true)
      else acc
  let r := w1.file.foldl step ([], false)
  if r.2 then { w1 with file := r.1 } else w1

/-- The LSN counter after WriteAheadLog construction: an absent log file
skips recoverFromLog and leaves the counter at 0; an existing file sets
it to one more than the largest checksum-valid LSN found (0 when the
file is empty or wholly corrupt). -/
def recoverInitialLSN (log : Option (List WalLine)) : Nat :=
  match log with
  | none => 0
  | some lines =>
      (lines.foldl
        (fun m l =>
          match l with
          | .good e => max m e.lsn
          | .bad => m) 0) + 1

/-- WAL state right after construction over the given log file (none
models an absent .wal file). -/
def walInit (log : Option (List WalLine)) : WALState :=
  { currentLSN := recoverInitialLSN log, buffer := [], file := log.getD [] }

/-- The largest checksum-valid LSN observed in a log file. -/
def maxGoodLSN (lines : List WalLine) : Nat :=
  (goodEntries lines).foldl (fun m e => max m e.lsn) 0

/-- Shared or exclusive lock mode. -/
inductive LockMode where
  | shared | exclusive
deriving DecidableEq, Repr

instance : BEq LockMode := ⟨fun a b => decide (a = b)⟩

/-- A queued lock request (transaction id and requested mode; the
resolve / reject continuations of the source are represented by the
queue position itself). -/
structure Waiter where
  transactionId : String
  mode : LockMode
deriving DecidableEq, Repr

/-- Per-key lock state: current mode, holder set (a JS Set, modelled as
a duplicate-free-by-construction list in insertion order) and the FIFO
wait queue. -/
structure LockInfo where
  mode : LockMode
  holders : List String
  waitQueue : List Waiter
deriving Repr

/-- The lock table of LockManager: a map from key to lock state
(association list in insertion order, like a JS Map). -/
def LockTable := List (String × LockInfo)

/-- JS Map.set on a string-keyed association list: update in place when
the key is present, else append. -/
def mapSet {α : Type} : List (String × α) → String → α → List (String × α)
  | [], key, v => [(key, v)]
  | (k, w) :: rest, key, v =>
      if k == key then (k, v) :: rest else (k, w) :: mapSet rest key v

/-- JS Map.delete on a string-keyed association list. -/
def mapDelete {α : Type} : List (String × α) → String → List (String × α)
  | [], _ => []
  | (k, w) :: rest, key =>
      if k == key then rest else (k, w) :: mapDelete rest key

/-- Map lookup on the lock table. -/
def lockLookup (locks : LockTable) (key : String) : Option LockInfo :=
  List.lookup key locks

/-- Map set on the lock table (JS Map.set). -/
def lockSet (locks : LockTable) (key : String) (info : LockInfo) : LockTable :=
  mapSet locks key info

/-- Map delete on the lock table (JS Map.delete). -/
def lockDelete (locks : LockTable) (key : String) : LockTable :=
  mapDelete locks key

/-- JS Set.add on the holder list: no-op when already present, else
append. -/
def holdersAdd (hs : List String) (t : String) : List String :=
  if hs.contains t then hs else hs ++ [t]

/-- LockManager.canGrantLock: grant when the transaction already holds
the lock, or there are no holders, or both the held and the requested
mode are shared. -/
def canGrantLock (info : LockInfo) (requested : LockMode)
    (txnId : String) : Bool :=
  info.holders.contains txnId ||
  info.holders.isEmpty ||
  (info.mode == .shared && requested == .shared)

/-- Outcome of the synchronous decision inside LockManager.acquireLock:
either the request is granted before the promise suspends, or it is
appended to the wait queue (where it would wait for a grant or the
deadlock timeout). -/
inductive AcquireOutcome where
  | granted | queued
deriving DecidableEq, Repr

/-- The synchronous decision of LockManager.acquireLock: create and
hold a fresh lock when none exists; otherwise grant per canGrantLock
(adding a shared holder when both modes are shared, else taking over
the lock in the requested mode, clearing other holders); otherwise
append the request to the wait queue. -/
def acquireLock (locks : LockTable) (key txnId : String)
    (mode : LockMode) : AcquireOutcome × LockTable :=
  match lockLookup locks key with
  | none =>
      (.granted, lockSet locks key ⟨mode, [txnId], []⟩)
  | some info =>
      if canGrantLock info mode txnId then
        if mode == .shared && info.mode == .shared then
          (.granted, lockSet locks key
            { info with holders := holdersAdd info.holders txnId })
        else
          (.granted, lockSet locks key
            { info with mode := mode, holders := [txnId] })
      else
        (.queued, lockSet locks key
          { info with waitQueue := info.waitQueue ++ [⟨txnId, mode⟩] })

/-- LockManager.processWaitQueue: when the head waiter is shared, grant
the whole consecutive shared prefix and set the mode to shared; when it
is exclusive, grant only the head and set the mode to exclusive. -/
def processWaitQueue (info : LockInfo) : LockInfo :=
  match info.waitQueue with
  | [] => info
  | w :: rest =>
    match w.mode with
    | .shared =>
        let sharedPrefix := info.waitQueue.takeWhile (fun q => q.mode == .shared)
        let remaining := info.waitQueue.dropWhile (fun q => q.mode == .shared)
        { mode := .shared,
          holders := sharedPrefix.foldl (fun hs q => holdersAdd hs q.transactionId) info.holders,
          waitQueue := remaining }
    | .exclusive =>
        { mode := .exclusive,
          holders := holdersAdd info.holders w.transactionId,
          waitQueue := rest }

/-- LockManager.releaseLock: return unchanged when no lock exists for
the key or the transaction is not a holder; otherwise remove the
holder, drain the wait queue if that left no holders, and delete the
lock object once both holders and queue are empty. -/
def releaseLock (locks : LockTable) (key txnId : String) : LockTable :=
  match lockLookup locks key with
  | none => locks
  | some info =>
    if !(info.holders.contains txnId) then locks
    else
      let info1 := { info with holders := info.holders.filter (fun h => h ≠ txnId) }
      let info2 :=
        if info1.holders.isEmpty && !info1.waitQueue.isEmpty then
          processWaitQueue info1
        else info1
      if info2.holders.isEmpty && info2.waitQueue.isEmpty then
        lockDelete locks key
      else
        lockSet locks key info2

/-- Remove a transaction's queued requests for one key, rejecting them
(the continuation failure itself has no further state effect). -/
def filterWaiters (locks : LockTable) (key txnId : String) : LockTable :=
  match lockLookup locks key with
  | none => locks
  | some info =>
      lockSet locks key
        { info with waitQueue := info.waitQueue.filter (fun q => q.transactionId ≠ txnId) }

/-- LockManager.releaseAllLocks: for every key of the table, release the
transaction's hold if it has one, then drop its queued requests
(rejecting each with a transaction-aborted error). -/
def releaseAllLocks (locks : LockTable) (txnId : String) : LockTable :=
  (locks.map Prod.fst).foldl
    (fun tbl key =>
      let tbl1 :=
        match lockLookup tbl key with
        | some info =>
            if info.holders.contains txnId then releaseLock tbl key txnId else tbl
        | none => tbl
      filterWaiters tbl1 key txnId)
    locks

/-- State of one key file in the data directory: absent, existing but
empty (or whitespace only), existing but unparseable, or holding a
parsed JSON value. -/
inductive FileContent where
  | absent | empty | corrupt
  | val (v : JSValue)
deriving Repr

/-- The data directory: one file state per key. -/
def Files := String → FileContent

/-- Write (or unlink, via FileContent.absent) one key file. -/
def setFile (fs : Files) (key : String) (c : FileContent) : Files :=
  fun k => if k == key then c else fs k

/-- Transaction status. -/
inductive TxnStatus where
  | active | committed | aborted
deriving DecidableEq, Repr

instance : BEq TxnStatus := ⟨fun a b => decide (a = b)⟩

/-- The kind tag recorded in a transaction's operation list. -/
inductive RecordedOp where
  | write | delete
deriving DecidableEq, Repr

/-- An entry of the activeTransactions map of ACIDStorageEngine. -/
structure Txn where
  id : String
  startLSN : Nat
  operations : List (String × RecordedOp)
  status : TxnStatus
deriving Repr

/-- The activeTransactions map (association list in insertion order). -/
def TxnTable := List (String × Txn)

/-- Map set on the transaction table (JS Map.set). -/
def txnSet (txns : TxnTable) (key : String) (t : Txn) : TxnTable :=
  mapSet txns key t

/-- Full state of an ACIDStorageEngine instance. -/
structure EngineState where
  wal : WALState
  locks : LockTable
  files : Files
  txns : TxnTable

/-- Errors surfaced by the engine operations in this model. -/
inductive EngineError where
  | invalidTransaction (id : String)
  | transactionNotFound (id : String)
  | readFailed (key : String)
  | mergeFailed (key : String)
deriving DecidableEq, Repr

/-- Outcome of an engine operation: a result with the new state, a
thrown error with the state at the throw, or suspension in a lock wait
queue (the promise neither resolves nor rejects synchronously). -/
inductive OpResult (α : Type) where
  | ok (a : α) (s : EngineState)
  | err (e : EngineError) (s : EngineState)
  | blocked (s : EngineState)

/-- The state carried by an operation outcome. -/
def OpResult.state : OpResult α → EngineState
  | .ok _ s => s
  | .err _ s => s
  | .blocked s => s

/-- Whether the outcome is a successful return. -/
def OpResult.isOk : OpResult α → Bool
  | .ok _ _ => true
  | _ => false

/-- The error of an outcome, when it threw. -/
def OpResult.error : OpResult α → Option EngineError
  | .err e _ => some e
  | _ => none

/-- The returned value of a successful outcome. -/
def OpResult.value : OpResult α → Option α
  | .ok a _ => some a
  | _ => none

/-- The WAL records of this transaction for this key from its start LSN
on, restricted to WRITE / DELETE: the scan both write and read use to
find pending in-transaction effects. -/
def txnPending (w : WALState) (txnId : String) (startLSN : Nat)
    (key : String) : List LogEntry :=
  (getLogEntries w (some startLSN)).filter fun e =>
    e.transactionId == txnId && e.key == some key &&
      (e.operation == .WRITE || e.operation == .DELETE)

/-- The on-disk value as the write path parses it: null when the file
is absent, the empty object when it is empty or unparseable, else the
parsed value. -/
def diskValueForWrite (c : FileContent) : JSValue :=
  match c with
  | .absent => .null
  | .empty => .obj []
  | .corrupt => .obj []
  | .val v => v

/-- The on-disk value as the delete path parses it: null when the file
is absent or unparseable (the parse error is swallowed and the initial
null kept), the empty object when it is empty, else the parsed value. -/
def diskValueForDelete (c : FileContent) : JSValue :=
  match c with
  | .absent => .null
  | .empty => .obj []
  | .corrupt => .null
  | .val v => v

/-- The current value visible to a transaction as the write path
computes it: the most recent pending in-transaction effect when there
is one (null after a DELETE, the after-image coerced to the empty
object when falsy after a WRITE), else the parsed on-disk value. -/
def visibleForWrite (w : WALState) (files : Files) (txnId : String)
    (startLSN : Nat) (key : String) : JSValue :=
  match (txnPending w txnId startLSN key).getLast? with
  | some lastE =>
      if lastE.operation == .DELETE then .null
      else jsOr lastE.afterImage (.obj [])
  | none => diskValueForWrite (files key)

/-- ACIDStorageEngine.write: resolve and check the transaction, take
the exclusive lock, compute the visible value and the merged
after-image, append the WRITE record and track the operation.  The
merge-failure branch models the catch clause (release the key lock and
rethrow); it is unreachable because the merge target is never null. -/
def write (s : EngineState) (txnId key : String) (data : JSValue) :
    OpResult Unit :=
  match List.lookup txnId s.txns with
  | none => .err (.invalidTransaction txnId) s
  | some txn =>
    if txn.status != .active then .err (.invalidTransaction txnId) s
    else
      match acquireLock s.locks key txnId .exclusive with
      | (.queued, locks1) => .blocked { s with locks := locks1 }
      | (.granted, locks1) =>
        let s1 := { s with locks := locks1 }
        let currentData := visibleForWrite s1.wal s1.files txnId txn.startLSN key
        match deepMerge (jsOrV currentData (.obj [])) data with
        | none =>
            .err (.mergeFailed key) { s1 with locks := releaseLock s1.locks key txnId }
        | some afterImage =>
          let r := writeLog s1.wal
            { operation := .WRITE, transactionId := txnId, key := some key,
              beforeImage := some currentData, afterImage := some afterImage }
          let txn1 := { txn with operations := txn.operations ++ [(key, .write)] }
          .ok () { s1 with wal := r.2, txns := txnSet s1.txns txnId txn1 }

/-- ACIDStorageEngine.read: resolve and check the transaction, take the
shared lock, return the most recent pending in-transaction effect when
there is one, else the on-disk value — null when the file is absent,
the empty object when it is empty; a parse error is caught, the key
lock is released, and a read-failed error is thrown. -/
def read (s : EngineState) (txnId key : String) : OpResult JSValue :=
  match List.lookup txnId s.txns with
  | none => .err (.invalidTransaction txnId) s
  | some txn =>
    if txn.status != .active then .err (.invalidTransaction txnId) s
    else
      match acquireLock s.locks key txnId .shared with
      | (.queued, locks1) => .blocked { s with locks := locks1 }
      | (.granted, locks1) =>
        let s1 := { s with locks := locks1 }
        match (txnPending s1.wal txnId txn.startLSN key).getLast? with
        | some lastE =>
            if lastE.operation == .DELETE then .ok .null s1
            else .ok (jsOr lastE.afterImage (.obj [])) s1
        | none =>
          match s1.files key with
          | .absent => .ok .null s1
          | .empty => .ok (.obj []) s1
          | .val v => .ok v s1
          | .corrupt =>
              .err (.readFailed key) { s1 with locks := releaseLock s1.locks key txnId }

/-- ACIDStorageEngine.delete: resolve and check the transaction, take
the exclusive lock, read the before-image from the on-disk file only,
append the DELETE record with a null after-image and track the
operation. -/
def delete (s : EngineState) (txnId key : String) : OpResult Unit :=
  match List.lookup txnId s.txns with
  | none => .err (.invalidTransaction txnId) s
  | some txn =>
    if txn.status != .active then .err (.invalidTransaction txnId) s
    else
      match acquireLock s.locks key txnId .exclusive with
      | (.queued, locks1) => .blocked { s with locks := locks1 }
      | (.granted, locks1) =>
        let s1 := { s with locks := locks1 }
        let beforeImage := diskValueForDelete (s1.files key)
        let r := writeLog s1.wal
          { operation := .DELETE, transactionId := txnId, key := some key,
            beforeImage := some beforeImage, afterImage := some JSValue.null }
        let txn1 := { txn with operations := txn.operations ++ [(key, .delete)] }
        .ok () { s1 with wal := r.2, txns := txnSet s1.txns txnId txn1 }

/-- Application of one of the transaction's WAL records to the data
files during commit: a WRITE with a non-empty key and a present
after-image writes the after-image file, a DELETE with a non-empty key
unlinks the file. -/
def applyCommitEntry (fs : Files) (e : LogEntry) : Files :=
  match e.operation with
  | .WRITE =>
    match e.key, e.afterImage with
    | some k, some ai => if k == "" then fs else setFile fs k (.val ai)
    | _, _ => fs
  | .DELETE =>
    match e.key with
    | some k => if k == "" then fs else setFile fs k .absent
    | none => fs
  | _ => fs

/-- ACIDStorageEngine.commitTransaction: check the transaction, append
COMMIT, force the WAL, apply the transaction's records to the data
files in LSN order, mark it committed, trim its WAL records and release
all its locks.  The catch clause (rollback and rethrow on an apply
error) is unreachable in this pure model, where file writes do not
fail. -/
def commitTransaction (s : EngineState) (txnId : String) : OpResult Unit :=
  match List.lookup txnId s.txns with
  | none => .err (.invalidTransaction txnId) s
  | some txn =>
    if txn.status != .active then .err (.invalidTransaction txnId) s
    else
      let r := writeLog s.wal { operation := .COMMIT, transactionId := txnId }
      let wal1 := flushBuffer r.2
      let entries := getLogEntries wal1 (some txn.startLSN)
      let mine := entries.filter (fun e => e.transactionId == txnId)
      let files1 := mine.foldl applyCommitEntry s.files
      let txn1 := { txn with status := .committed }
      let wal2 := clearCommittedTransaction wal1 txnId
      .ok () { wal := wal2, locks := releaseAllLocks s.locks txnId,
               files := files1, txns := txnSet s.txns txnId txn1 }

/-- ACIDStorageEngine.rollbackTransaction: fail only when the id is
unknown; otherwise append ROLLBACK, mark the transaction aborted
(whatever its current status) and release all its locks. -/
def rollbackTransaction (s : EngineState) (txnId : String) : OpResult Unit :=
  match List.lookup txnId s.txns with
  | none => .err (.transactionNotFound txnId) s
  | some txn =>
      let r := writeLog s.wal { operation := .ROLLBACK, transactionId := txnId }
      let txn1 := { txn with status := .aborted }
      let locks1 := releaseAllLocks s.locks txnId
      .ok () { s with wal := r.2, locks := locks1, txns := txnSet s.txns txnId txn1 }

/-- ACIDStorageEngine.beginTransaction: append BEGIN, register the
transaction as active with the BEGIN record's LSN as its start LSN.
The fresh UUID is passed in as newId. -/
def beginTransaction (s : EngineState) (newId : String) : String × EngineState :=
  let r := writeLog s.wal { operation := .BEGIN, transactionId := newId }
  (newId,
    { s with wal := r.2,
             txns := txnSet s.txns newId ⟨newId, r.1, [], .active⟩ })

/-- ACIDStorageEngine.redoOperation: skip when the key or after-image
is falsy, else write the after-image file (redo of a committed WRITE). -/
def redoOperation (fs : Files) (e : LogEntry) : Files :=
  match e.key, e.afterImage with
  | some k, some ai => if k == "" || !truthy ai then fs else setFile fs k (.val ai)
  | _, _ => fs

/-- ACIDStorageEngine.redoDelete: skip when the key is falsy, else
unlink the key file (redo of a committed DELETE). -/
def redoDelete (fs : Files) (e : LogEntry) : Files :=
  match e.key with
  | some k => if k == "" then fs else setFile fs k .absent
  | none => fs

/-- ACIDStorageEngine.undoOperation: for an uncommitted WRITE, unlink
when the before-image is null, restore it otherwise (an absent
before-image field makes the file write throw, which is swallowed); for
an uncommitted DELETE, restore the before-image when it is truthy. -/
def undoOperation (fs : Files) (e : LogEntry) : Files :=
  match e.key with
  | none => fs
  | some k =>
    if k == "" then fs
    else
      match e.operation with
      | .WRITE =>
        match e.beforeImage with
        | some .null => setFile fs k .absent
        | some v => setFile fs k (.val v)
        | none => fs
      | .DELETE =>
        match e.beforeImage with
        | some v => if truthy v then setFile fs k (.val v) else fs
        | none => fs
      | _ => fs

/-- ACIDStorageEngine.performCrashRecovery over the scanned WAL
entries: analysis (partition ids by COMMIT / ROLLBACK records), redo of
committed WRITE / DELETE records in order, then undo of uncommitted,
unaborted WRITE / DELETE records in reverse order. -/
def performCrashRecovery (entries : List LogEntry) (fs : Files) : Files :=
  let committed := entries.filterMap fun e =>
    if e.operation == .COMMIT then some e.transactionId else none
  let aborted := entries.filterMap fun e =>
    if e.operation == .ROLLBACK then some e.transactionId else none
  let fs1 := entries.foldl
    (fun acc e =>
      if e.operation == .WRITE && committed.contains e.transactionId then
        redoOperation acc e
      else if e.operation == .DELETE && committed.contains e.transactionId then
        redoDelete acc e
      else acc)
    fs
  let uncommitted := (entries.filter fun e =>
      (e.operation == .WRITE || e.operation == .DELETE) &&
      !committed.contains e.transactionId &&
      !aborted.contains e.transactionId).reverse
  uncommitted.foldl undoOperation fs1

/-- Whether the transaction currently holds the lock on the key. -/
def holdsLockB (locks : LockTable) (key txnId : String) : Bool :=
  match lockLookup locks key with
  | some info => info.holders.contains txnId
  | none => false

/-- Whether the transaction has a queued request on the key. -/
def waitingB (locks : LockTable) (key txnId : String) : Bool :=
  match lockLookup locks key with
  | some info => info.waitQueue.any (fun q => q.transactionId == txnId)
  | none => false

/-- Whether acquireLock grants immediately, per the source: trivially
when no lock object exists, else per canGrantLock. -/
def grantPredB (locks : LockTable) (key txnId : String) (mode : LockMode) : Bool :=
  match lockLookup locks key with
  | none => true
  | some info => canGrantLock info mode txnId

theorem mapSet_lookup_self {α : Type} (m : List (String × α)) (key : String) (v : α) :
    List.lookup key (mapSet m key v) = some v := by
  induction m with
  | nil => simp [mapSet, List.lookup]
  | cons p rest ih =>
    obtain ⟨k, w⟩ := p
    by_cases h : k = key
    · subst h
      simp [mapSet, List.lookup]
    · simp only [mapSet, beq_iff_eq, if_neg h]
      simp only [List.lookup, show (key == k) = false from beq_eq_false_iff_ne.mpr (Ne.symm h)]
      exact ih

theorem mapSet_lookup_ne {α : Type} (m : List (String × α)) (key k' : String) (v : α)
    (h : k' ≠ key) :
    List.lookup k' (mapSet m key v) = List.lookup k' m := by
  induction m with
  | nil =>
    simp [mapSet, List.lookup, show (k' == key) = false from beq_eq_false_iff_ne.mpr h]
  | cons p rest ih =>
    obtain ⟨k, w⟩ := p
    by_cases hk : k = key
    · subst hk
      simp [mapSet, List.lookup, show (k' == k) = false from beq_eq_false_iff_ne.mpr h]
    · by_cases hk' : k' = k
      · subst hk'
        simp [mapSet, beq_iff_eq, hk, List.lookup]
      · simp only [mapSet, beq_iff_eq, if_neg hk]
        simp only [List.lookup, show (k' == k) = false from beq_eq_false_iff_ne.mpr hk']
        exact ih

theorem mapSet_keys {α : Type} (m : List (String × α)) (key : String) (v : α) :
    (mapSet m key v).map Prod.fst =
      if (m.map Prod.fst).contains key then m.map Prod.fst
      else m.map Prod.fst ++ [key] := by
  induction m with
  | nil => simp [mapSet]
  | cons p rest ih =>
    obtain ⟨k, w⟩ := p
    by_cases h : k = key
    · subst h
      simp [mapSet, List.contains_cons]
    · have hkk : (key == k) = false := beq_eq_false_iff_ne.mpr (Ne.symm h)
      simp only [mapSet, beq_iff_eq, if_neg h, List.map_cons, List.contains_cons, ih, hkk,
        Bool.false_or]
      by_cases hc : (rest.map Prod.fst).contains key
      · rw [if_pos hc, if_pos hc]
      · rw [if_neg hc, if_neg hc]
        rfl

theorem mapSet_keys_nodup {α : Type} (m : List (String × α)) (key : String) (v : α)
    (h : (m.map Prod.fst).Nodup) :
    ((mapSet m key v).map Prod.fst).Nodup := by
  rw [mapSet_keys]
  by_cases hc : (m.map Prod.fst).contains key
  · rw [if_pos hc]
    exact h
  · rw [if_neg hc]
    have : key ∉ m.map Prod.fst := by
      intro hmem
      exact hc (by simpa using hmem)
    simp [List.nodup_append, h, this]

theorem lookup_eq_none_of_not_mem_keys {α : Type} (m : List (String × α)) (key : String)
    (h : key ∉ m.map Prod.fst) :
    List.lookup key m = none := by
  induction m with
  | nil => rfl
  | cons p rest ih =>
    obtain ⟨k, w⟩ := p
    simp only [List.map_cons, List.mem_cons] at h
    push_neg at h
    simp only [List.lookup, show (key == k) = false from beq_eq_false_iff_ne.mpr h.1]
    exact ih h.2

theorem mapDelete_lookup_self {α : Type} (m : List (String × α)) (key : String)
    (h : (m.map Prod.fst).Nodup) :
    List.lookup key (mapDelete m key) = none := by
  induction m with
  | nil => rfl
  | cons p rest ih =>
    obtain ⟨k, w⟩ := p
    simp only [List.map_cons, List.nodup_cons] at h
    by_cases hk : k = key
    · subst hk
      simp only [mapDelete, beq_iff_eq, if_pos rfl]
      exact lookup_eq_none_of_not_mem_keys rest k h.1
    · simp only [mapDelete, beq_iff_eq, if_neg hk, List.lookup,
        show (key == k) = false from beq_eq_false_iff_ne.mpr (Ne.symm hk)]
      exact ih h.2

theorem holdersAdd_contains_self (hs : List String) (t : String) :
    (holdersAdd hs t).contains t = true := by
  unfold holdersAdd
  by_cases h : hs.contains t
  · rw [if_pos h]
    exact h
  · rw [if_neg h]
    simp

theorem holdersAdd_contains_false (hs : List String) (u t : String)
    (hb : hs.contains t = false) (hu : u ≠ t) :
    (holdersAdd hs u).contains t = false := by
  unfold holdersAdd
  by_cases h : hs.contains u
  · rw [if_pos h]
    exact hb
  · rw [if_neg h]
    have hmem : t ∉ hs ++ [u] := by
      intro hmem
      rcases List.mem_append.mp hmem with h1 | h1
      · have hb' : t ∉ hs := by simpa using hb
        exact hb' h1
      · have h1' : t = u := by simpa using h1
        exact hu h1'.symm
    simpa using hmem

theorem contains_foldl_holdersAdd (ws : List Waiter) (base : List String) (t : String)
    (hb : base.contains t = false)
    (hw : ∀ q ∈ ws, q.transactionId ≠ t) :
    ((ws.foldl (fun hs q => holdersAdd hs q.transactionId) base).contains t) = false := by
  induction ws generalizing base with
  | nil => simpa using hb
  | cons q rest ih =>
    simp only [List.foldl_cons]
    exact ih (holdersAdd base q.transactionId)
      (holdersAdd_contains_false base q.transactionId t hb (hw q (by simp)))
      (fun q' hq' => hw q' (by simp [hq']))

theorem contains_filter_ne (hs : List String) (t : String) :
    ((hs.filter fun h => h ≠ t).contains t) = false := by
  have hmem : t ∉ hs.filter fun h => h ≠ t := by
    intro hmem
    have := (List.mem_filter.mp hmem).2
    simp at this
  simp [hmem]

theorem acquireLock_granted_shape (locks : LockTable) (key txnId : String)
    (mode : LockMode) (l' : LockTable)
    (h : acquireLock locks key txnId mode = (.granted, l')) :
    ∃ info, l' = lockSet locks key info ∧ info.holders.contains txnId = true ∧
      info.waitQueue = ((lockLookup locks key).map LockInfo.waitQueue).getD [] := by
  unfold acquireLock at h
  cases hlk : lockLookup locks key with
  | none =>
    rw [hlk] at h
    dsimp only at h
    simp only [Prod.mk.injEq] at h
    exact ⟨⟨mode, [txnId], []⟩, h.2.symm, by simp, by simp [hlk]⟩
  | some info =>
    rw [hlk] at h
    dsimp only at h
    by_cases hg : canGrantLock info mode txnId
    · rw [if_pos hg] at h
      by_cases hsh : (mode == LockMode.shared && info.mode == LockMode.shared) = true
      · rw [if_pos hsh] at h
        simp only [Prod.mk.injEq] at h
        exact ⟨_, h.2.symm, holdersAdd_contains_self _ _, by simp [hlk]⟩
      · rw [if_neg hsh] at h
        simp only [Prod.mk.injEq] at h
        exact ⟨_, h.2.symm, by simp, by simp [hlk]⟩
    · rw [if_neg hg] at h
      exact absurd (congrArg Prod.fst h) (by simp)

theorem mem_takeWhile_mem {α : Type} {p : α → Bool} {l : List α} {a : α}
    (h : a ∈ l.takeWhile p) : a ∈ l := by
  induction l with
  | nil => simp at h
  | cons x xs ih =>
    by_cases hp : p x
    · rw [List.takeWhile_cons_of_pos hp] at h
      rcases List.mem_cons.mp h with h1 | h1
      · exact h1 ▸ List.mem_cons_self _ _
      · exact List.mem_cons_of_mem _ (ih h1)
    · rw [List.takeWhile_cons_of_neg hp] at h
      simp at h

theorem processWaitQueue_contains_false (info : LockInfo) (t : String)
    (hb : info.holders.contains t = false)
    (hw : ∀ q ∈ info.waitQueue, q.transactionId ≠ t) :
    (processWaitQueue info).holders.contains t = false := by
  unfold processWaitQueue
  cases hq : info.waitQueue with
  | nil => exact hb
  | cons w rest =>
    obtain ⟨wt, wm⟩ := w
    have hwt : wt ≠ t := hw ⟨wt, wm⟩ (hq ▸ List.mem_cons_self _ _)
    cases wm with
    | shared =>
      dsimp only
      refine contains_foldl_holdersAdd _ _ _ hb ?_
      intro q hqmem
      exact hw q (hq ▸ mem_takeWhile_mem hqmem)
    | exclusive =>
      dsimp only
      exact holdersAdd_contains_false _ _ _ hb hwt

theorem waitingB_false_elim (locks : LockTable) (key txnId : String) (info : LockInfo)
    (hlk : lockLookup locks key = some info)
    (hw : waitingB locks key txnId = false) :
    ∀ q ∈ info.waitQueue, q.transactionId ≠ txnId := by
  unfold waitingB at hw
  rw [hlk] at hw
  dsimp only at hw
  intro q hq he
  have hany : info.waitQueue.any (fun q => q.transactionId == txnId) = true :=
    List.any_eq_true.mpr ⟨q, hq, by simp [he]⟩
  rw [hany] at hw
  exact absurd hw (by simp)

theorem releaseLock_removes_holder (locks : LockTable) (key txnId : String)
    (hnd : (locks.map Prod.fst).Nodup)
    (hw : waitingB locks key txnId = false) :
    holdsLockB (releaseLock locks key txnId) key txnId = false := by
  unfold releaseLock
  cases hlk : lockLookup locks key with
  | none =>
    unfold holdsLockB
    rw [hlk]
  | some info =>
    dsimp only
    by_cases hc : info.holders.contains txnId
    · have hcm : txnId ∈ info.holders := by simpa using hc
      rw [if_neg (by simp [hcm])]
      have hwq := waitingB_false_elim locks key txnId info hlk hw
      have h1 : ((info.holders.filter fun h => h ≠ txnId).contains txnId) = false :=
        contains_filter_ne _ _
      set info1 : LockInfo :=
        { info with holders := info.holders.filter fun h => h ≠ txnId } with hinfo1
      have h2 : ∀ info2 : LockInfo,
          info2 = (if info1.holders.isEmpty && !info1.waitQueue.isEmpty
            then processWaitQueue info1 else info1) →
          info2.holders.contains txnId = false := by
        intro info2 hdef
        by_cases hcond : (info1.holders.isEmpty && !info1.waitQueue.isEmpty) = true
        · rw [hdef, if_pos hcond]
          exact processWaitQueue_contains_false info1 txnId h1 hwq
        · rw [hdef, if_neg hcond]
          exact h1
      set info2 : LockInfo :=
        (if info1.holders.isEmpty && !info1.waitQueue.isEmpty
          then processWaitQueue info1 else info1) with hinfo2
      have h2' := h2 info2 hinfo2
      by_cases hfin : (info2.holders.isEmpty && info2.waitQueue.isEmpty) = true
      · rw [if_pos hfin]
        unfold holdsLockB lockLookup lockDelete
        rw [mapDelete_lookup_self locks key hnd]
      · rw [if_neg hfin]
        unfold holdsLockB lockLookup lockSet
        rw [mapSet_lookup_self]
        exact h2'
    · have hcm : txnId ∉ info.holders := by simpa using hc
      rw [if_pos (by simp [hcm])]
      unfold holdsLockB
      rw [hlk]
      simpa using hc

/-- Claim C10: releaseLock called for a transaction that is not among
the holders of the key's lock — including when no lock object exists
for the key — returns without error and leaves the whole lock table
unchanged (so no holder set, mode or wait queue of any key changes and
no waiter is resumed). -/
theorem claim_C10_releaseLock_frame (locks : LockTable) (key txnId : String)
    (h : holdsLockB locks key txnId = false) :
    releaseLock locks key txnId = locks := by
  unfold releaseLock
  cases hlk : lockLookup locks key with
  | none => rfl
  | some info =>
    unfold holdsLockB at h
    rw [hlk] at h
    dsimp only at h
    have hm : txnId ∉ info.holders := by simpa using h
    dsimp only
    rw [if_pos (by simp [hm])]

theorem claim_C10_witness :
    holdsLockB [("k", ⟨LockMode.shared, ["t1"], []⟩)] "k" "t2" = false ∧
    releaseLock [("k", ⟨LockMode.shared, ["t1"], []⟩)] "k" "t2" =
      [("k", ⟨LockMode.shared, ["t1"], []⟩)] :=
  ⟨rfl, claim_C10_releaseLock_frame _ "k" "t2" rfl⟩

/-- Claim C3 (amended): a lock request is granted immediately exactly
when the transaction already holds the lock (in any mode and regardless
of other holders: an exclusive request by a current holder is granted
and evicts all other holders), or there are no holders, or both the
held and requested modes are shared; otherwise it is appended to the
wait queue.  (The original claim required the transaction to be the
sole holder for an upgrade to exclusive; the code grants the upgrade
regardless.) -/
theorem claim_C3_grant_policy (locks : LockTable) (key txnId : String) (mode : LockMode) :
    ((acquireLock locks key txnId mode).1 = .granted ↔
      grantPredB locks key txnId mode = true) ∧
    (∀ info, lockLookup locks key = some info →
      canGrantLock info mode txnId = false →
      acquireLock locks key txnId mode =
        (.queued, lockSet locks key
          { info with waitQueue := info.waitQueue ++ [⟨txnId, mode⟩] })) ∧
    (∀ info, lockLookup locks key = some info →
      info.holders.contains txnId = true →
      acquireLock locks key txnId .exclusive =
        (.granted, lockSet locks key
          { info with mode := .exclusive, holders := [txnId] })) := by
  refine ⟨?_, ?_, ?_⟩
  · unfold acquireLock grantPredB
    cases hlk : lockLookup locks key with
    | none => simp
    | some info =>
      dsimp only
      by_cases hg : canGrantLock info mode txnId
      · rw [if_pos hg]
        by_cases hsh : (mode == LockMode.shared && info.mode == LockMode.shared) = true
        · rw [if_pos hsh]
          simpa using hg
        · rw [if_neg hsh]
          simpa using hg
      · rw [if_neg hg]
        simpa using hg
  · intro info hlk hg
    unfold acquireLock
    rw [hlk]
    dsimp only
    rw [if_neg (by simp [hg])]
  · intro info hlk hc
    unfold acquireLock
    rw [hlk]
    dsimp only
    have hcm : txnId ∈ info.holders := by simpa using hc
    rw [if_pos (by simp [canGrantLock, hcm]), if_neg (by simp)]

theorem claim_C3_witness :
    (lockLookup [("k", ⟨LockMode.shared, ["t1"], []⟩)] "k" =
      some ⟨LockMode.shared, ["t1"], []⟩) ∧
    canGrantLock ⟨LockMode.shared, ["t1"], []⟩ .exclusive "t2" = false ∧
    acquireLock [("k", ⟨LockMode.shared, ["t1"], []⟩)] "k" "t2" .exclusive =
      (.queued, [("k", ⟨LockMode.shared, ["t1"], [⟨"t2", .exclusive⟩]⟩)]) :=
  ⟨rfl, rfl,
    (claim_C3_grant_policy [("k", ⟨LockMode.shared, ["t1"], []⟩)] "k" "t2" .exclusive).2.1
      ⟨LockMode.shared, ["t1"], []⟩ rfl rfl⟩

/-- Claim C3 counterexample: with two shared holders t1 and t2, an
exclusive request by t1 is granted immediately (and evicts t2), where
the claim says it must wait in the queue. -/
theorem claim_C3_counterexample :
    acquireLock [("k", ⟨LockMode.shared, ["t1", "t2"], []⟩)] "k" "t1" .exclusive =
      (.granted, [("k", ⟨LockMode.exclusive, ["t1"], []⟩)]) ∧
    (acquireLock [("k", ⟨LockMode.shared, ["t1", "t2"], []⟩)] "k" "t1" .exclusive).1 ≠
      .queued :=
  ⟨rfl, fun h => by simp [acquireLock, lockLookup, List.lookup, canGrantLock] at h⟩

/-- The status of a transaction as registered in the engine. -/
def txnStatusOf (s : EngineState) (id : String) : Option TxnStatus :=
  (List.lookup id s.txns).map Txn.status

/-- A data directory with no key files. -/
def filesAbsent : Files := fun _ => FileContent.absent

/-- A transaction record of t1, already committed, start LSN 1. -/
def txnCommittedT1 : Txn := ⟨"t1", 1, [], .committed⟩

/-- Engine state holding only the committed transaction t1. -/
def stateCommittedT1 : EngineState :=
  { wal := walInit (some []), locks := [], files := filesAbsent,
    txns := [("t1", txnCommittedT1)] }

/-- Claim C1 (amended): write, read, delete and commit against a
transaction whose status is not active fail with InvalidTransaction and
leave the state unchanged; rollback, however, checks only that the id
is registered: it fails (with a transaction-not-found error) only for
an unknown id, and rolling back a committed (or already aborted)
transaction succeeds and sets its status to aborted — the transitions
are not terminal under rollback. -/
theorem claim_C1_nonactive_ops (s : EngineState) (txnId : String) (txn : Txn)
    (hl : List.lookup txnId s.txns = some txn)
    (hs : (txn.status == TxnStatus.active) = false) :
    (∀ key data, write s txnId key data = .err (.invalidTransaction txnId) s) ∧
    (∀ key, read s txnId key = .err (.invalidTransaction txnId) s) ∧
    (∀ key, delete s txnId key = .err (.invalidTransaction txnId) s) ∧
    (commitTransaction s txnId = .err (.invalidTransaction txnId) s) ∧
    (∃ s', rollbackTransaction s txnId = .ok () s' ∧
      txnStatusOf s' txnId = some .aborted) ∧
    (∀ tid, List.lookup tid s.txns = none →
      rollbackTransaction s tid = .err (.transactionNotFound tid) s) := by
  have hbne : (txn.status != TxnStatus.active) = true := by
    simp [bne] at hs ⊢
    exact hs
  refine ⟨?_, ?_, ?_, ?_, ?_, ?_⟩
  · intro key data
    unfold write
    rw [hl]
    dsimp only
    rw [if_pos hbne]
  · intro key
    unfold read
    rw [hl]
    dsimp only
    rw [if_pos hbne]
  · intro key
    unfold delete
    rw [hl]
    dsimp only
    rw [if_pos hbne]
  · unfold commitTransaction
    rw [hl]
    dsimp only
    rw [if_pos hbne]
  · refine ⟨{ s with
        wal := (writeLog s.wal { operation := .ROLLBACK, transactionId := txnId }).2,
        locks := releaseAllLocks s.locks txnId,
        txns := txnSet s.txns txnId { txn with status := .aborted } }, ?_, ?_⟩
    · unfold rollbackTransaction
      rw [hl]
    · unfold txnStatusOf txnSet
      dsimp only
      rw [mapSet_lookup_self]
      rfl
  · intro tid htid
    unfold rollbackTransaction
    rw [htid]

theorem claim_C1_witness :
    List.lookup "t1" stateCommittedT1.txns = some txnCommittedT1 ∧
    (txnCommittedT1.status == TxnStatus.active) = false ∧
    ((∀ key data, write stateCommittedT1 "t1" key data =
        .err (.invalidTransaction "t1") stateCommittedT1) ∧
      (∀ key, read stateCommittedT1 "t1" key =
        .err (.invalidTransaction "t1") stateCommittedT1) ∧
      (∀ key, delete stateCommittedT1 "t1" key =
        .err (.invalidTransaction "t1") stateCommittedT1) ∧
      (commitTransaction stateCommittedT1 "t1" =
        .err (.invalidTransaction "t1") stateCommittedT1) ∧
      (∃ s', rollbackTransaction stateCommittedT1 "t1" = .ok () s' ∧
        txnStatusOf s' "t1" = some .aborted) ∧
      (∀ tid, List.lookup tid stateCommittedT1.txns = none →
        rollbackTransaction stateCommittedT1 tid =
          .err (.transactionNotFound tid) stateCommittedT1)) :=
  ⟨rfl, rfl, claim_C1_nonactive_ops stateCommittedT1 "t1" txnCommittedT1 rfl rfl⟩

/-- Claim C1 counterexample: rolling back the already committed
transaction t1 does not fail with InvalidTransaction — it succeeds (no
error) and flips the status from committed to aborted, so the committed
state is not terminal and the registry does not reject the operation. -/
theorem claim_C1_counterexample :
    txnStatusOf stateCommittedT1 "t1" = some .committed ∧
    (rollbackTransaction stateCommittedT1 "t1").isOk = true ∧
    (rollbackTransaction stateCommittedT1 "t1").error = none ∧
    txnStatusOf (rollbackTransaction stateCommittedT1 "t1").state "t1" =
      some .aborted :=
  ⟨rfl, rfl, rfl, rfl⟩

theorem goodEntries_append (a b : List WalLine) :
    goodEntries (a ++ b) = goodEntries a ++ goodEntries b := by
  simp [goodEntries, List.filterMap_append]

theorem goodEntries_map_good (es : List LogEntry) :
    goodEntries (es.map WalLine.good) = es := by
  induction es with
  | nil => rfl
  | cons e rest ih => simp [goodEntries] at ih ⊢; exact ih

theorem walEntries_flushBuffer (w : WALState) :
    walEntries (flushBuffer w) = walEntries w := by
  unfold flushBuffer walEntries
  by_cases h : w.buffer.isEmpty
  · rw [if_pos h]
  · rw [if_neg h]
    dsimp only
    rw [goodEntries_append, goodEntries_map_good, List.append_assoc, List.append_nil]

/-- The entry that writeLog stamps for a given pending entry at the
current LSN. -/
def stampEntry (w : WALState) (e : PendingEntry) : LogEntry :=
  { lsn := w.currentLSN, transactionId := e.transactionId, operation := e.operation,
    key := e.key, beforeImage := e.beforeImage, afterImage := e.afterImage }

theorem walEntries_writeLog (w : WALState) (e : PendingEntry) :
    walEntries (writeLog w e).2 = walEntries w ++ [stampEntry w e] := by
  unfold writeLog stampEntry
  dsimp only
  split
  · dsimp only
    rw [walEntries_flushBuffer]
    unfold walEntries
    dsimp only
    rw [← List.append_assoc]
  · unfold walEntries
    dsimp only
    rw [← List.append_assoc]

theorem writeLog_noflush (w : WALState) (e : PendingEntry)
    (hop : (e.operation == OpName.COMMIT) = false)
    (hop2 : (e.operation == OpName.ROLLBACK) = false)
    (hlen : w.buffer.length + 1 < BUFFER_SIZE) :
    writeLog w e = (w.currentLSN,
      { w with currentLSN := w.currentLSN + 1,
               buffer := w.buffer ++ [stampEntry w e] }) := by
  unfold writeLog
  dsimp only
  rw [if_neg (by simp [hop, hop2]; omega)]
  rfl

theorem merge_total_aux : ∀ n : Nat,
    (∀ t s, sizeOf s < n → t ≠ JSValue.null → (deepMerge t s).isSome = true) ∧
    (∀ t acc fs, sizeOf fs < n → t ≠ JSValue.null →
      (mergeInto t acc fs).isSome = true) := by
  intro n
  induction n using Nat.strong_induction_on with
  | _ n IH =>
    constructor
    · intro t s hsz ht
      match s with
      | .null => simp [deepMerge]
      | .bool b => simp [deepMerge]
      | .num m => simp [deepMerge]
      | .str st => simp [deepMerge]
      | .arr xs => simp [deepMerge]
      | .obj fs =>
        have hlt : sizeOf fs < sizeOf (JSValue.obj fs) := by
          simp only [JSValue.obj.sizeOf_spec]
          omega
        have hm := (IH (sizeOf (JSValue.obj fs)) hsz).2 t (spreadFields t) fs hlt ht
        unfold deepMerge
        cases hmo : mergeInto t (spreadFields t) fs with
        | none =>
          rw [hmo] at hm
          simp at hm
        | some r => rfl
    · intro t acc fs hsz ht
      have hnull : isNullV t = false := by
        cases t <;> first | exact absurd rfl ht | rfl
      match fs with
      | [] => simp [mergeInto]
      | (k, sv) :: rest =>
        have hszc : sizeOf ((k, sv) :: rest) < n := hsz
        have hrest : sizeOf rest < sizeOf ((k, sv) :: rest) := by
          simp only [List.cons.sizeOf_spec]
          omega
        have hsv : sizeOf sv < sizeOf ((k, sv) :: rest) := by
          simp only [List.cons.sizeOf_spec, Prod.mk.sizeOf_spec]
          omega
        have hrec : ∀ acc', (mergeInto t acc' rest).isSome = true :=
          fun acc' => (IH _ hszc).2 t acc' rest hrest ht
        unfold mergeInto
        by_cases hp : isPlainObj sv
        · rw [if_pos hp, if_neg (by simp [hnull])]
          cases hg : getProp t k with
          | none => exact hrec _
          | some tv =>
            dsimp only
            by_cases hptv : isPlainObj tv
            · rw [if_pos hptv]
              have htv : tv ≠ JSValue.null := by
                match tv, hptv with
                | .obj _, _ => simp
              have hts := (IH _ hszc).1 tv sv hsv htv
              cases hdm : deepMerge tv sv with
              | none =>
                rw [hdm] at hts
                simp at hts
              | some rv => exact hrec _
            · rw [if_neg hptv]
              exact hrec _
        · rw [if_neg hp]
          exact hrec _

theorem deepMerge_isSome (t s : JSValue) (ht : t ≠ JSValue.null) :
    (deepMerge t s).isSome = true :=
  (merge_total_aux (sizeOf s + 1)).1 t s (Nat.lt_succ_self _) ht

theorem truthy_obj (fs : List (String × JSValue)) : truthy (.obj fs) = true := rfl

theorem jsOrV_ne_null (v d : JSValue) (hd : d ≠ JSValue.null) :
    jsOrV v d ≠ JSValue.null := by
  unfold jsOrV
  by_cases h : truthy v
  · rw [if_pos h]
    intro he
    rw [he] at h
    simp [truthy] at h
  · rw [if_neg h]
    exact hd

theorem deepMerge_plainObj_shape (t p r : JSValue) (hp : isPlainObj p = true)
    (h : deepMerge t p = some r) : ∃ rfs, r = JSValue.obj rfs := by
  match p, hp with
  | .obj fs, _ =>
    unfold deepMerge at h
    cases hm : mergeInto t (spreadFields t) fs with
    | none =>
      rw [hm] at h
      simp at h
    | some racc =>
      rw [hm] at h
      simp at h
      exact ⟨racc, h.symm⟩

theorem deepMerge_nonobj_source (t p : JSValue) (hnp : isPlainObj p = false)
    (hn : p ≠ JSValue.null) : deepMerge t p = some p := by
  cases p with
  | null => exact absurd rfl hn
  | bool b => rfl
  | num n => rfl
  | str s => rfl
  | arr xs => rfl
  | obj fs => simp [isPlainObj] at hnp

theorem deepMerge_truthy_source (t p af : JSValue) (hp : truthy p = true)
    (h : deepMerge t p = some af) : truthy af = true := by
  cases p with
  | null => simp [truthy] at hp
  | bool b =>
    unfold deepMerge at h
    injection h with h
    rw [← h]
    exact hp
  | num n =>
    unfold deepMerge at h
    injection h with h
    rw [← h]
    exact hp
  | str s =>
    unfold deepMerge at h
    injection h with h
    rw [← h]
    exact hp
  | arr xs =>
    unfold deepMerge at h
    injection h with h
    rw [← h]
    rfl
  | obj fs =>
    obtain ⟨rfs, hrfs⟩ := deepMerge_plainObj_shape t (.obj fs) af rfl h
    rw [hrfs]
    rfl

theorem writeLog_fst (w : WALState) (e : PendingEntry) :
    (writeLog w e).1 = w.currentLSN := by
  unfold writeLog
  dsimp only
  split <;> rfl

/-- A successful write appends exactly one WRITE entry, whose
before-image is the transaction-visible value and whose after-image is
the deep merge of that value (coerced to the empty object when falsy)
with the patch. -/
theorem write_ok_appends (s : EngineState) (txnId key : String) (data : JSValue)
    (txn : Txn) (locks1 : LockTable)
    (hl : List.lookup txnId s.txns = some txn)
    (hs : (txn.status == TxnStatus.active) = true)
    (hacq : acquireLock s.locks key txnId .exclusive = (.granted, locks1)) :
    ∃ af, deepMerge (jsOrV (visibleForWrite s.wal s.files txnId txn.startLSN key)
        (.obj [])) data = some af ∧
      (write s txnId key data).isOk = true ∧
      walEntries (write s txnId key data).state.wal = walEntries s.wal ++
        [{ lsn := s.wal.currentLSN, transactionId := txnId, operation := .WRITE,
           key := some key,
           beforeImage := some (visibleForWrite s.wal s.files txnId txn.startLSN key),
           afterImage := some af }] := by
  have hbne : ¬((txn.status != TxnStatus.active) = true) := by simp [bne, hs]
  have hne : jsOrV (visibleForWrite s.wal s.files txnId txn.startLSN key)
      (.obj []) ≠ JSValue.null := jsOrV_ne_null _ _ (by simp)
  have hsome := deepMerge_isSome _ data hne
  cases haf : deepMerge (jsOrV (visibleForWrite s.wal s.files txnId txn.startLSN key)
      (.obj [])) data with
  | none =>
    rw [haf] at hsome
    simp at hsome
  | some af =>
    refine ⟨af, rfl, ?_, ?_⟩
    · unfold write
      rw [hl]
      dsimp only
      rw [if_neg hbne, hacq]
      dsimp only
      rw [haf]
      rfl
    · unfold write
      rw [hl]
      dsimp only
      rw [if_neg hbne, hacq]
      dsimp only
      rw [haf]
      dsimp only [OpResult.state]
      rw [walEntries_writeLog]
      rfl

/-- A delete appends exactly one DELETE entry whose before-image is the
parsed on-disk value only (null when the file is absent or
unparseable), ignoring pending in-transaction effects, and whose
after-image is null. -/
theorem delete_ok_appends (s : EngineState) (txnId key : String)
    (txn : Txn) (locks1 : LockTable)
    (hl : List.lookup txnId s.txns = some txn)
    (hs : (txn.status == TxnStatus.active) = true)
    (hacq : acquireLock s.locks key txnId .exclusive = (.granted, locks1)) :
    (delete s txnId key).isOk = true ∧
    walEntries (delete s txnId key).state.wal = walEntries s.wal ++
      [{ lsn := s.wal.currentLSN, transactionId := txnId, operation := .DELETE,
         key := some key, beforeImage := some (diskValueForDelete (s.files key)),
         afterImage := some JSValue.null }] := by
  have hbne : ¬((txn.status != TxnStatus.active) = true) := by simp [bne, hs]
  refine ⟨?_, ?_⟩
  · unfold delete
    rw [hl]
    dsimp only
    rw [if_neg hbne, hacq]
    rfl
  · unfold delete
    rw [hl]
    dsimp only
    rw [if_neg hbne, hacq]
    dsimp only [OpResult.state]
    rw [walEntries_writeLog]
    rfl

/-- Claim C4 (amended): a WRITE entry's before-image is the value
visible to the transaction (most recent in-transaction effect, else the
on-disk value), but a DELETE entry's before-image is read from the
on-disk file only — null when the file is absent or unparseable, the
parsed value otherwise — regardless of any pending in-transaction
effects on the key; its after-image is null. -/
theorem claim_C4_before_images (s : EngineState) (txnId key : String) (data : JSValue)
    (txn : Txn) (locks1 : LockTable)
    (hl : List.lookup txnId s.txns = some txn)
    (hs : (txn.status == TxnStatus.active) = true)
    (hacq : acquireLock s.locks key txnId .exclusive = (.granted, locks1)) :
    (∃ af, deepMerge (jsOrV (visibleForWrite s.wal s.files txnId txn.startLSN key)
        (.obj [])) data = some af ∧
      (write s txnId key data).isOk = true ∧
      walEntries (write s txnId key data).state.wal = walEntries s.wal ++
        [{ lsn := s.wal.currentLSN, transactionId := txnId, operation := .WRITE,
           key := some key,
           beforeImage := some (visibleForWrite s.wal s.files txnId txn.startLSN key),
           afterImage := some af }]) ∧
    (delete s txnId key).isOk = true ∧
    walEntries (delete s txnId key).state.wal = walEntries s.wal ++
      [{ lsn := s.wal.currentLSN, transactionId := txnId, operation := .DELETE,
         key := some key, beforeImage := some (diskValueForDelete (s.files key)),
         afterImage := some JSValue.null }] :=
  ⟨write_ok_appends s txnId key data txn locks1 hl hs hacq,
    (delete_ok_appends s txnId key txn locks1 hl hs hacq).1,
    (delete_ok_appends s txnId key txn locks1 hl hs hacq).2⟩

/-- Engine state with no files, no locks and no transactions, WAL
constructed over an existing empty log file. -/
def stateEmptyEngine : EngineState :=
  { wal := walInit (some []), locks := [], files := filesAbsent, txns := [] }

/-- State after beginTransaction returned t1 on the empty engine. -/
def stateActiveT1 : EngineState := (beginTransaction stateEmptyEngine "t1").2

/-- State after t1 wrote the patch a to key k (used against C4). -/
def stateAfterWriteK : EngineState :=
  (write stateActiveT1 "t1" "k" (.obj [("a", .num 1)])).state

theorem claim_C4_witness :
    List.lookup "t1" stateActiveT1.txns = some ⟨"t1", 1, [], .active⟩ ∧
    ((⟨"t1", 1, [], .active⟩ : Txn).status == TxnStatus.active) = true ∧
    acquireLock stateActiveT1.locks "k" "t1" .exclusive =
      (.granted, [("k", ⟨.exclusive, ["t1"], []⟩)]) ∧
    ((∃ af, deepMerge (jsOrV (visibleForWrite stateActiveT1.wal stateActiveT1.files
          "t1" 1 "k") (.obj [])) (.num 7) = some af ∧
        (write stateActiveT1 "t1" "k" (.num 7)).isOk = true ∧
        walEntries (write stateActiveT1 "t1" "k" (.num 7)).state.wal =
          walEntries stateActiveT1.wal ++
          [{ lsn := stateActiveT1.wal.currentLSN, transactionId := "t1",
             operation := .WRITE, key := some "k",
             beforeImage := some (visibleForWrite stateActiveT1.wal
               stateActiveT1.files "t1" 1 "k"),
             afterImage := some af }]) ∧
      (delete stateActiveT1 "t1" "k").isOk = true ∧
      walEntries (delete stateActiveT1 "t1" "k").state.wal =
        walEntries stateActiveT1.wal ++
        [{ lsn := stateActiveT1.wal.currentLSN, transactionId := "t1",
           operation := .DELETE, key := some "k",
           beforeImage := some (diskValueForDelete (stateActiveT1.files "k")),
           afterImage := some JSValue.null }]) :=
  ⟨rfl, rfl, rfl,
    claim_C4_before_images stateActiveT1 "t1" "k" (.num 7)
      ⟨"t1", 1, [], .active⟩ [("k", ⟨.exclusive, ["t1"], []⟩)] rfl rfl rfl⟩

/-- Claim C4 counterexample: t1 writes the patch a to k (an absent
file), then deletes k.  The value visible to t1 at the delete is the
pending write effect, an object with field a, but the DELETE entry's
before-image is null, read from the still-absent on-disk file. -/
theorem claim_C4_counterexample :
    (write stateActiveT1 "t1" "k" (.obj [("a", .num 1)])).isOk = true ∧
    visibleForWrite stateAfterWriteK.wal stateAfterWriteK.files "t1" 1 "k" =
      .obj [("a", .num 1)] ∧
    (delete stateAfterWriteK "t1" "k").isOk = true ∧
    ((walEntries (delete stateAfterWriteK "t1" "k").state.wal).getLast?).map
        LogEntry.beforeImage = some (some JSValue.null) ∧
    (JSValue.null : JSValue) ≠ .obj [("a", .num 1)] :=
  ⟨rfl, rfl, rfl, rfl, by simp⟩

theorem foldMax_lines (lines : List WalLine) (m : Nat) :
    lines.foldl
      (fun m l => match l with | .good e => max m e.lsn | .bad => m) m =
    (goodEntries lines).foldl (fun m e => max m e.lsn) m := by
  induction lines generalizing m with
  | nil => rfl
  | cons l rest ih =>
    cases l with
    | good e => simp [goodEntries, List.filterMap_cons, ih]
    | bad => simp [goodEntries, List.filterMap_cons, ih]

/-- Claim C8 (amended): construction over an ABSENT log file leaves the
LSN counter at 0 — the first append returns LSN 0, not 1; an existing
but EMPTY log yields first LSN 1; an existing log yields
max(checksum-valid LSN) + 1 (which is 1 when no valid entry exists);
an append always returns the counter the construction left; and with an
absent or empty log, the crash-recovery pass leaves every key file of
the data directory untouched. -/
theorem claim_C8_initial_lsn :
    recoverInitialLSN none = 0 ∧
    recoverInitialLSN (some []) = 1 ∧
    (∀ log e, (writeLog (walInit log) e).1 = recoverInitialLSN log) ∧
    (∀ lines, recoverInitialLSN (some lines) = maxGoodLSN lines + 1) ∧
    (∀ fs, performCrashRecovery (getLogEntries (walInit none) none) fs = fs) ∧
    (∀ fs, performCrashRecovery (getLogEntries (walInit (some [])) none) fs = fs) := by
  refine ⟨rfl, rfl, ?_, ?_, fun fs => rfl, fun fs => rfl⟩
  · intro log e
    rw [writeLog_fst]
    rfl
  · intro lines
    unfold recoverInitialLSN maxGoodLSN
    dsimp only
    rw [foldMax_lines]

/-- Claim C8 counterexample: with an absent .wal file the first append
returns LSN 0, where the claim requires 1. -/
theorem claim_C8_counterexample :
    (writeLog (walInit none) { operation := .BEGIN, transactionId := "t1" }).1 = 0 ∧
    (writeLog (walInit none) { operation := .BEGIN, transactionId := "t1" }).1 ≠ 1 :=
  ⟨rfl, by decide⟩

/-- Claim C9 (amended): in write, with no pending in-transaction effect
for the key, the visible current value (and the recorded before-image)
is the parsed on-disk value; it is null when the file is absent, but
the empty object — not null — when the file exists and is empty (and
also on a parse error). -/
theorem claim_C9_write_visible_disk (s : EngineState) (txnId key : String)
    (data : JSValue) (txn : Txn) (locks1 : LockTable)
    (hl : List.lookup txnId s.txns = some txn)
    (hs : (txn.status == TxnStatus.active) = true)
    (hacq : acquireLock s.locks key txnId .exclusive = (.granted, locks1))
    (hpend : txnPending s.wal txnId txn.startLSN key = []) :
    ∃ af, deepMerge (jsOrV (diskValueForWrite (s.files key)) (.obj [])) data = some af ∧
      (write s txnId key data).isOk = true ∧
      walEntries (write s txnId key data).state.wal = walEntries s.wal ++
        [{ lsn := s.wal.currentLSN, transactionId := txnId, operation := .WRITE,
           key := some key, beforeImage := some (diskValueForWrite (s.files key)),
           afterImage := some af }] ∧
      diskValueForWrite FileContent.absent = JSValue.null ∧
      diskValueForWrite FileContent.empty = JSValue.obj [] ∧
      diskValueForWrite FileContent.corrupt = JSValue.obj [] := by
  have hvis : visibleForWrite s.wal s.files txnId txn.startLSN key =
      diskValueForWrite (s.files key) := by
    unfold visibleForWrite
    rw [hpend]
    rfl
  obtain ⟨af, h1, h2, h3⟩ := write_ok_appends s txnId key data txn locks1 hl hs hacq
  rw [hvis] at h1 h3
  exact ⟨af, h1, h2, h3, rfl, rfl, rfl⟩

theorem claim_C9_witness :
    List.lookup "t1" stateActiveT1.txns = some ⟨"t1", 1, [], .active⟩ ∧
    ((⟨"t1", 1, [], .active⟩ : Txn).status == TxnStatus.active) = true ∧
    acquireLock stateActiveT1.locks "k" "t1" .exclusive =
      (.granted, [("k", ⟨.exclusive, ["t1"], []⟩)]) ∧
    txnPending stateActiveT1.wal "t1" 1 "k" = [] ∧
    (∃ af, deepMerge (jsOrV (diskValueForWrite (stateActiveT1.files "k")) (.obj []))
        (.obj [("x", .num 5)]) = some af ∧
      (write stateActiveT1 "t1" "k" (.obj [("x", .num 5)])).isOk = true ∧
      walEntries (write stateActiveT1 "t1" "k" (.obj [("x", .num 5)])).state.wal =
        walEntries stateActiveT1.wal ++
        [{ lsn := stateActiveT1.wal.currentLSN, transactionId := "t1",
           operation := .WRITE, key := some "k",
           beforeImage := some (diskValueForWrite (stateActiveT1.files "k")),
           afterImage := some af }] ∧
      diskValueForWrite FileContent.absent = JSValue.null ∧
      diskValueForWrite FileContent.empty = JSValue.obj [] ∧
      diskValueForWrite FileContent.corrupt = JSValue.obj []) :=
  ⟨rfl, rfl, rfl, rfl,
    claim_C9_write_visible_disk stateActiveT1 "t1" "k" (.obj [("x", .num 5)])
      ⟨"t1", 1, [], .active⟩ [("k", ⟨.exclusive, ["t1"], []⟩)] rfl rfl rfl rfl⟩

/-- A data directory whose file for the key doc exists but is empty. -/
def filesEmptyDoc : Files :=
  fun k => if k == "doc" then FileContent.empty else FileContent.absent

/-- Engine with the empty doc file and an active transaction t1. -/
def stateEmptyFileT1 : EngineState :=
  (beginTransaction
    { wal := walInit (some []), locks := [], files := filesEmptyDoc, txns := [] }
    "t1").2

/-- Claim C9 counterexample: when the key file exists but is empty, the
recorded before-image of a write with no pending in-transaction effect
is the empty object, not null as the claim states. -/
theorem claim_C9_counterexample :
    filesEmptyDoc "doc" = FileContent.empty ∧
    (write stateEmptyFileT1 "t1" "doc" (.obj [("x", .num 5)])).isOk = true ∧
    ((walEntries (write stateEmptyFileT1 "t1" "doc"
        (.obj [("x", .num 5)])).state.wal).getLast?).map LogEntry.beforeImage =
      some (some (.obj [])) ∧
    (JSValue.obj [] : JSValue) ≠ JSValue.null :=
  ⟨rfl, rfl, rfl, by simp⟩

/-- The effect of one recovery step on the data directory: set one key
file to a content (a write or an unlink), or nothing. -/
def FileEffect := Option (String × FileContent)

/-- Apply one effect. -/
def applyEffect (fs : Files) (eff : FileEffect) : Files :=
  match eff with
  | none => fs
  | some (k, c) => setFile fs k c

/-- Apply a list of effects left to right. -/
def applyEffects (fs : Files) (effs : List FileEffect) : Files :=
  effs.foldl applyEffect fs

/-- The effect of redoOperation, as a state-independent effect. -/
def redoEffect (e : LogEntry) : FileEffect :=
  match e.key, e.afterImage with
  | some k, some ai => if k == "" || !truthy ai then none else some (k, .val ai)
  | _, _ => none

/-- The effect of redoDelete. -/
def redoDeleteEffect (e : LogEntry) : FileEffect :=
  match e.key with
  | some k => if k == "" then none else some (k, .absent)
  | none => none

/-- The effect of undoOperation. -/
def undoEffect (e : LogEntry) : FileEffect :=
  match e.key with
  | none => none
  | some k =>
    if k == "" then none
    else
      match e.operation with
      | .WRITE =>
        match e.beforeImage with
        | some .null => some (k, .absent)
        | some v => some (k, .val v)
        | none => none
      | .DELETE =>
        match e.beforeImage with
        | some v => if truthy v then some (k, .val v) else none
        | none => none
      | _ => none

/-- The effect of one iteration of the redo loop: redo committed WRITE
and DELETE records, skip everything else. -/
def redoPhaseEffect (committed : List String) (e : LogEntry) : FileEffect :=
  if e.operation == .WRITE && committed.contains e.transactionId then redoEffect e
  else if e.operation == .DELETE && committed.contains e.transactionId then
    redoDeleteEffect e
  else none

theorem redoOperation_effect (fs : Files) (e : LogEntry) :
    redoOperation fs e = applyEffect fs (redoEffect e) := by
  unfold redoOperation redoEffect applyEffect
  cases hk : e.key with
  | none => cases e.afterImage <;> rfl
  | some k =>
    cases hai : e.afterImage with
    | none => rfl
    | some ai =>
      dsimp only
      by_cases h : (k == "" || !truthy ai) = true
      · rw [if_pos h, if_pos h]
      · rw [if_neg h, if_neg h]

theorem redoDelete_effect (fs : Files) (e : LogEntry) :
    redoDelete fs e = applyEffect fs (redoDeleteEffect e) := by
  unfold redoDelete redoDeleteEffect applyEffect
  cases hk : e.key with
  | none => rfl
  | some k =>
    dsimp only
    by_cases h : (k == "") = true
    · rw [if_pos h, if_pos h]
    · rw [if_neg h, if_neg h]

theorem undoOperation_effect (fs : Files) (e : LogEntry) :
    undoOperation fs e = applyEffect fs (undoEffect e) := by
  unfold undoOperation undoEffect applyEffect
  cases hk : e.key with
  | none => rfl
  | some k =>
    dsimp only
    by_cases h : (k == "") = true
    · rw [if_pos h, if_pos h]
    · rw [if_neg h, if_neg h]
      cases e.operation with
      | WRITE =>
        cases e.beforeImage with
        | none => rfl
        | some v => cases v <;> rfl
      | DELETE =>
        cases e.beforeImage with
        | none => rfl
        | some v =>
          dsimp only
          by_cases ht : truthy v = true
          · rw [if_pos ht, if_pos ht]
          · rw [if_neg ht, if_neg ht]
      | BEGIN => rfl
      | COMMIT => rfl
      | ROLLBACK => rfl
      | CHECKPOINT => rfl

theorem redoStep_effect (committed : List String) (fs : Files) (e : LogEntry) :
    (if e.operation == OpName.WRITE && committed.contains e.transactionId then
       redoOperation fs e
     else if e.operation == OpName.DELETE && committed.contains e.transactionId then
       redoDelete fs e
     else fs) = applyEffect fs (redoPhaseEffect committed e) := by
  unfold redoPhaseEffect
  by_cases h1 : (e.operation == OpName.WRITE && committed.contains e.transactionId) = true
  · rw [if_pos h1, if_pos h1]
    exact redoOperation_effect fs e
  · rw [if_neg h1, if_neg h1]
    by_cases h2 : (e.operation == OpName.DELETE && committed.contains e.transactionId) = true
    · rw [if_pos h2, if_pos h2]
      exact redoDelete_effect fs e
    · rw [if_neg h2, if_neg h2]
      rfl

theorem foldl_step_effect (step : Files → LogEntry → Files)
    (effOf : LogEntry → FileEffect)
    (h : ∀ fs e, step fs e = applyEffect fs (effOf e)) :
    ∀ (l : List LogEntry) (fs : Files),
      l.foldl step fs = applyEffects fs (l.map effOf) := by
  intro l
  induction l with
  | nil => intro fs; rfl
  | cons e rest ih =>
    intro fs
    rw [List.foldl_cons, h fs e, List.map_cons]
    exact ih (applyEffect fs (effOf e))

/-- The content the last effect touching a key writes, if any. -/
def lastEffOn : List FileEffect → String → Option FileContent
  | [], _ => none
  | eff :: rest, k =>
    match lastEffOn rest k with
    | some c => some c
    | none =>
      match eff with
      | some (k', c) => if k' == k then some c else none
      | none => none

theorem lastEffOn_cons (eff : FileEffect) (rest : List FileEffect) (k : String) :
    lastEffOn (eff :: rest) k =
      match lastEffOn rest k with
      | some c => some c
      | none =>
        match eff with
        | some (k', c) => if k' == k then some c else none
        | none => none := rfl

theorem applyEffects_apply (effs : List FileEffect) (fs : Files) (k : String) :
    applyEffects fs effs k =
      match lastEffOn effs k with
      | some c => c
      | none => fs k := by
  induction effs generalizing fs with
  | nil => rfl
  | cons eff rest ih =>
    unfold applyEffects at ih ⊢
    rw [List.foldl_cons, ih (applyEffect fs eff), lastEffOn_cons]
    cases hrest : lastEffOn rest k with
    | some c => rfl
    | none =>
      cases eff with
      | none => rfl
      | some kc =>
        obtain ⟨k', c⟩ := kc
        unfold applyEffect setFile
        dsimp only
        by_cases h : k' = k
        · subst h
          rw [if_pos (by simp), if_pos (by simp)]
        · rw [if_neg (by simp [Ne.symm h]), if_neg (by simp [h])]

theorem applyEffects_idem (effs : List FileEffect) (fs : Files) :
    applyEffects (applyEffects fs effs) effs = applyEffects fs effs := by
  funext k
  rw [applyEffects_apply effs (applyEffects fs effs) k]
  cases h : lastEffOn effs k with
  | some c =>
    rw [applyEffects_apply effs fs k, h]
  | none => rfl

/-- The full recovery pass as a list of state-independent effects. -/
def recoveryEffects (entries : List LogEntry) : List FileEffect :=
  let committed := entries.filterMap fun e =>
    if e.operation == .COMMIT then some e.transactionId else none
  let aborted := entries.filterMap fun e =>
    if e.operation == .ROLLBACK then some e.transactionId else none
  entries.map (redoPhaseEffect committed) ++
    ((entries.filter fun e =>
        (e.operation == .WRITE || e.operation == .DELETE) &&
        !committed.contains e.transactionId &&
        !aborted.contains e.transactionId).reverse).map undoEffect

theorem applyEffects_append (fs : Files) (a b : List FileEffect) :
    applyEffects fs (a ++ b) = applyEffects (applyEffects fs a) b := by
  unfold applyEffects
  exact List.foldl_append _ _ _ _

theorem performCrashRecovery_eq (entries : List LogEntry) (fs : Files) :
    performCrashRecovery entries fs = applyEffects fs (recoveryEffects entries) := by
  unfold performCrashRecovery recoveryEffects
  dsimp only
  rw [applyEffects_append]
  rw [foldl_step_effect _ _ (redoStep_effect _) entries fs]
  rw [foldl_step_effect _ _ undoOperation_effect]

/-- Claim C6: crash recovery is idempotent — for every scanned WAL
entry list and every initial data directory, running the
analysis / redo / undo pass twice produces exactly the same directory
as running it once (every redo and undo step writes a
state-independent content or unlinks, so a second pass repeats the
same effects). -/
theorem claim_C6_recovery_idempotent (entries : List LogEntry) (fs : Files) :
    performCrashRecovery entries (performCrashRecovery entries fs) =
      performCrashRecovery entries fs := by
  simp only [performCrashRecovery_eq]
  exact applyEffects_idem _ _

theorem propLookup_setProp_self (l : List (String × JSValue)) (k : String) (v : JSValue) :
    propLookup (setProp l k v) k = some v := by
  induction l with
  | nil => simp [setProp, propLookup]
  | cons p rest ih =>
    obtain ⟨k0, w⟩ := p
    by_cases h : k0 = k
    · subst h
      simp [setProp, propLookup]
    · simp only [setProp, beq_iff_eq, if_neg h]
      simp only [propLookup, show (k0 == k) = false from beq_eq_false_iff_ne.mpr h]
      exact ih

theorem propLookup_setProp_ne (l : List (String × JSValue)) (k k' : String) (v : JSValue)
    (h : k' ≠ k) :
    propLookup (setProp l k v) k' = propLookup l k' := by
  induction l with
  | nil =>
    simp [setProp, propLookup, show (k == k') = false from beq_eq_false_iff_ne.mpr (Ne.symm h)]
  | cons p rest ih =>
    obtain ⟨k0, w⟩ := p
    by_cases hk : k0 = k
    · subst hk
      simp [setProp, propLookup, show (k0 == k') = false from beq_eq_false_iff_ne.mpr (Ne.symm h)]
    · by_cases hk' : k0 = k'
      · subst hk'
        simp [setProp, beq_iff_eq, hk, propLookup]
      · simp only [setProp, beq_iff_eq, if_neg hk]
        simp only [propLookup, show (k0 == k') = false from beq_eq_false_iff_ne.mpr hk']
        exact ih

theorem propLookup_none_of_not_mem (l : List (String × JSValue)) (k : String)
    (h : k ∉ l.map Prod.fst) :
    propLookup l k = none := by
  induction l with
  | nil => rfl
  | cons p rest ih =>
    obtain ⟨k0, w⟩ := p
    simp only [List.map_cons, List.mem_cons] at h
    push_neg at h
    simp only [propLookup, show (k0 == k) = false from beq_eq_false_iff_ne.mpr (Ne.symm h.1)]
    exact ih h.2

/-- The per-key reference semantics of the claim: for a source key,
the recursive merge of target[k] and source[k] when both are plain
objects and source[k] otherwise; for a key only the target owns, the
target's own value is preserved. -/
def mergeFieldSpec (t : JSValue) (fs : List (String × JSValue))
    (acc : List (String × JSValue)) (k : String) : Option JSValue :=
  match propLookup fs k with
  | none => propLookup acc k
  | some sv =>
    if isPlainObj sv then
      match getProp t k with
      | some tv => if isPlainObj tv then deepMerge tv sv else some sv
      | none => some sv
    else some sv

theorem mergeFieldSpec_shift (t : JSValue) (k0 k : String) (sv x : JSValue)
    (rest acc : List (String × JSValue)) (hne : k ≠ k0) :
    mergeFieldSpec t rest (setProp acc k0 x) k =
      mergeFieldSpec t ((k0, sv) :: rest) acc k := by
  unfold mergeFieldSpec
  simp only [propLookup, show (k0 == k) = false from beq_eq_false_iff_ne.mpr (Ne.symm hne)]
  cases hr : propLookup rest k with
  | some sv' => rfl
  | none => exact propLookup_setProp_ne acc k0 k x hne

theorem mergeInto_lookup (fs : List (String × JSValue)) (t : JSValue)
    (acc : List (String × JSValue))
    (ht : t ≠ JSValue.null) (hnd : (fs.map Prod.fst).Nodup) :
    ∃ racc, mergeInto t acc fs = some racc ∧
      ∀ k, propLookup racc k = mergeFieldSpec t fs acc k := by
  have hnull : isNullV t = false := by
    cases t <;> first | exact absurd rfl ht | rfl
  induction fs generalizing acc with
  | nil => exact ⟨acc, rfl, fun k => rfl⟩
  | cons p rest ih =>
    obtain ⟨k0, sv⟩ := p
    simp only [List.map_cons, List.nodup_cons] at hnd
    have hk0 : propLookup rest k0 = none := propLookup_none_of_not_mem rest k0 hnd.1
    have step : ∀ x, propLookup ((k0, sv) :: rest) k0 = some sv →
        mergeFieldSpec t ((k0, sv) :: rest) acc k0 = some x →
        (∃ racc, mergeInto t (setProp acc k0 x) rest = some racc ∧
          ∀ k, propLookup racc k = mergeFieldSpec t rest (setProp acc k0 x) k) →
        ∃ racc, mergeInto t (setProp acc k0 x) rest = some racc ∧
          ∀ k, propLookup racc k = mergeFieldSpec t ((k0, sv) :: rest) acc k := by
      intro x hself hspec ⟨racc, heq, hchar⟩
      refine ⟨racc, heq, fun k => ?_⟩
      by_cases hk : k = k0
      · subst hk
        rw [hchar k, hspec]
        unfold mergeFieldSpec
        rw [hk0]
        dsimp only
        rw [propLookup_setProp_self]
      · rw [hchar k, mergeFieldSpec_shift t k0 k sv x rest acc hk]
    have hself : propLookup ((k0, sv) :: rest) k0 = some sv := by
      simp [propLookup]
    unfold mergeInto
    by_cases hp : isPlainObj sv
    · rw [if_pos hp, if_neg (by simp [hnull])]
      cases hg : getProp t k0 with
      | none =>
        refine step sv hself ?_ (ih (setProp acc k0 sv) hnd.2)
        unfold mergeFieldSpec
        rw [hself]
        dsimp only
        rw [if_pos hp, hg]
      | some tv =>
        dsimp only
        by_cases hptv : isPlainObj tv
        · rw [if_pos hptv]
          have htv : tv ≠ JSValue.null := by
            match tv, hptv with
            | .obj _, _ => simp
          have hts := deepMerge_isSome tv sv htv
          cases hdm : deepMerge tv sv with
          | none =>
            rw [hdm] at hts
            simp at hts
          | some rv =>
            refine step rv hself ?_ (ih (setProp acc k0 rv) hnd.2)
            unfold mergeFieldSpec
            rw [hself]
            dsimp only
            rw [if_pos hp, hg]
            dsimp only
            rw [if_pos hptv, hdm]
        · rw [if_neg hptv]
          refine step sv hself ?_ (ih (setProp acc k0 sv) hnd.2)
          unfold mergeFieldSpec
          rw [hself]
          dsimp only
          rw [if_pos hp, hg]
          dsimp only
          rw [if_neg hptv]
    · rw [if_neg hp]
      refine step sv hself ?_ (ih (setProp acc k0 sv) hnd.2)
      unfold mergeFieldSpec
      rw [hself]
      dsimp only
      rw [if_neg hp]

/-- Claim C7 (amended): for every non-null target, deepMerge returns a
value satisfying the reference semantics — target unchanged for a null
source, source itself for a non-object source (arrays replace), and for
an object source an object holding, at each source key, the recursive
merge when both sides are plain objects and the source value otherwise,
with target-only keys preserved; the function is pure, so the target is
never mutated.  (For a NULL target whose source contains a plain-object
value the code throws a TypeError instead of returning a merged
object, which is why the claim is restricted to non-null targets.) -/
theorem claim_C7_deepMerge_spec (t s : JSValue) (ht : t ≠ JSValue.null) :
    ∃ r, deepMerge t s = some r ∧
      (s = .null → r = t) ∧
      (isPlainObj s = false → s ≠ .null → r = s) ∧
      (∀ fs, s = .obj fs → (fs.map Prod.fst).Nodup →
        ∃ rfs, r = .obj rfs ∧
          ∀ k, propLookup rfs k = mergeFieldSpec t fs (spreadFields t) k) := by
  cases s with
  | null =>
    refine ⟨t, rfl, fun _ => rfl, fun _ h2 => absurd rfl h2, fun fs h _ => ?_⟩
    exact absurd h (by simp)
  | bool b =>
    refine ⟨.bool b, rfl, fun h => ?_, fun _ _ => rfl, fun fs h _ => ?_⟩
    · exact absurd h (by simp)
    · exact absurd h (by simp)
  | num n =>
    refine ⟨.num n, rfl, fun h => ?_, fun _ _ => rfl, fun fs h _ => ?_⟩
    · exact absurd h (by simp)
    · exact absurd h (by simp)
  | str st =>
    refine ⟨.str st, rfl, fun h => ?_, fun _ _ => rfl, fun fs h _ => ?_⟩
    · exact absurd h (by simp)
    · exact absurd h (by simp)
  | arr xs =>
    refine ⟨.arr xs, rfl, fun h => ?_, fun _ _ => rfl, fun fs h _ => ?_⟩
    · exact absurd h (by simp)
    · exact absurd h (by simp)
  | obj fs =>
    have hsome := deepMerge_isSome t (.obj fs) ht
    cases hm : deepMerge t (.obj fs) with
    | none =>
      rw [hm] at hsome
      simp at hsome
    | some r =>
      have hmi : ∃ racc, mergeInto t (spreadFields t) fs = some racc ∧
          r = JSValue.obj racc := by
        unfold deepMerge at hm
        cases hmi : mergeInto t (spreadFields t) fs with
        | none =>
          rw [hmi] at hm
          simp at hm
        | some racc =>
          rw [hmi] at hm
          simp at hm
          exact ⟨racc, rfl, hm.symm⟩
      obtain ⟨racc, hracc, hr⟩ := hmi
      refine ⟨r, rfl, fun h => absurd h (by simp),
        fun hfalse _ => by simp [isPlainObj] at hfalse,
        fun fs' hfs' hnd => ?_⟩
      have : fs' = fs := by
        injection hfs' with h
        exact h.symm
      subst this
      obtain ⟨racc', heq', hchar⟩ := mergeInto_lookup fs' t (spreadFields t) ht hnd
      have hra : racc' = racc := by
        rw [hracc] at heq'
        exact (Option.some.inj heq').symm
      subst hra
      exact ⟨racc', hr, hchar⟩

theorem claim_C7_witness :
    ((JSValue.obj [("x", .num 1)]) ≠ JSValue.null) ∧
    (∃ r, deepMerge (.obj [("x", .num 1)]) (.obj [("a", .obj [("b", .num 2)])]) = some r ∧
      ((JSValue.obj [("a", .obj [("b", .num 2)])]) = .null →
        r = .obj [("x", .num 1)]) ∧
      (isPlainObj (.obj [("a", .obj [("b", .num 2)])]) = false →
        (JSValue.obj [("a", .obj [("b", .num 2)])]) ≠ .null →
        r = .obj [("a", .obj [("b", .num 2)])]) ∧
      (∀ fs, (JSValue.obj [("a", .obj [("b", .num 2)])]) = .obj fs →
        (fs.map Prod.fst).Nodup →
        ∃ rfs, r = .obj rfs ∧
          ∀ k, propLookup rfs k =
            mergeFieldSpec (.obj [("x", .num 1)]) fs
              (spreadFields (.obj [("x", .num 1)])) k)) :=
  ⟨by simp, claim_C7_deepMerge_spec (.obj [("x", .num 1)])
    (.obj [("a", .obj [("b", .num 2)])]) (by simp)⟩

/-- Claim C7 counterexample: the claim is stated for every target and
source; but at the null target with a source holding a plain-object
value the code throws a TypeError (reading a property of null), while
the claim's reference definition yields the source object. -/
theorem claim_C7_counterexample :
    deepMerge JSValue.null (.obj [("a", .obj [])]) = none ∧
    mergeFieldSpec JSValue.null [("a", JSValue.obj [])]
      (spreadFields JSValue.null) "a" = some (.obj []) :=
  ⟨rfl, rfl⟩

theorem holdsLockB_after_granted (locks : LockTable) (key txnId : String)
    (mode : LockMode) (locks1 : LockTable)
    (h : acquireLock locks key txnId mode = (.granted, locks1)) :
    holdsLockB locks1 key txnId = true := by
  obtain ⟨info, hset, hcont, _⟩ := acquireLock_granted_shape locks key txnId mode locks1 h
  unfold holdsLockB lockLookup
  rw [hset]
  unfold lockSet
  rw [mapSet_lookup_self]
  exact hcont

theorem waitingB_after_granted (locks : LockTable) (key txnId : String)
    (mode : LockMode) (locks1 : LockTable)
    (h : acquireLock locks key txnId mode = (.granted, locks1))
    (hw : waitingB locks key txnId = false) :
    waitingB locks1 key txnId = false := by
  obtain ⟨info, hset, _, hwq⟩ := acquireLock_granted_shape locks key txnId mode locks1 h
  unfold waitingB lockLookup
  rw [hset]
  unfold lockSet
  rw [mapSet_lookup_self]
  dsimp only
  rw [hwq]
  unfold waitingB at hw
  cases hlk : lockLookup locks key with
  | none => simp [hlk]
  | some info0 =>
    rw [hlk] at hw
    simpa [hlk] using hw

theorem nodup_after_granted (locks : LockTable) (key txnId : String)
    (mode : LockMode) (locks1 : LockTable)
    (h : acquireLock locks key txnId mode = (.granted, locks1))
    (hnd : (locks.map Prod.fst).Nodup) :
    (locks1.map Prod.fst).Nodup := by
  obtain ⟨info, hset, _, _⟩ := acquireLock_granted_shape locks key txnId mode locks1 h
  rw [hset]
  exact mapSet_keys_nodup locks key info hnd

/-- Claim C2 (amended): a write, read or delete that returns
successfully leaves the transaction among the holders of the key's
lock; but the transaction does NOT always remain a holder until its
commit or rollback, in two ways.  First, an operation that fails after
lock acquisition releases that key's lock before rethrowing — in
particular a read that hits an unparseable key file throws a read error
and removes the transaction from the lock's holders while the
transaction is still active.  Second, a re-entrant exclusive request by
another co-holder is granted and evicts the transaction from the
holder set while it is still active. -/
theorem claim_C2_lock_retention :
    (∀ s txnId key data s₁, write s txnId key data = .ok () s₁ →
      holdsLockB s₁.locks key txnId = true) ∧
    (∀ s txnId key v s₁, read s txnId key = .ok v s₁ →
      holdsLockB s₁.locks key txnId = true) ∧
    (∀ s txnId key s₁, delete s txnId key = .ok () s₁ →
      holdsLockB s₁.locks key txnId = true) ∧
    (∀ s txnId key e s₁, read s txnId key = .err e s₁ →
      e ≠ .invalidTransaction txnId →
      (s.locks.map Prod.fst).Nodup →
      waitingB s.locks key txnId = false →
      e = .readFailed key ∧ holdsLockB s₁.locks key txnId = false) ∧
    (∀ locks key t u info locks1, lockLookup locks key = some info →
      info.holders.contains u = true → u ≠ t →
      acquireLock locks key u .exclusive = (.granted, locks1) →
      holdsLockB locks1 key t = false) := by
  refine ⟨?_, ?_, ?_, ?_, ?_⟩
  · intro s txnId key data s₁ h
    unfold write at h
    cases hl : List.lookup txnId s.txns with
    | none =>
      rw [hl] at h
      exact absurd h (by simp)
    | some txn =>
      rw [hl] at h
      dsimp only at h
      by_cases hst : (txn.status != TxnStatus.active) = true
      · rw [if_pos hst] at h
        exact absurd h (by simp)
      · rw [if_neg hst] at h
        rcases hacq : acquireLock s.locks key txnId LockMode.exclusive with ⟨outcome, locks1⟩
        rw [hacq] at h
        cases outcome with
        | queued => exact absurd h (by simp)
        | granted =>
          dsimp only at h
          cases hdm : deepMerge (jsOrV (visibleForWrite s.wal s.files txnId
              txn.startLSN key) (.obj [])) data with
          | none =>
            rw [hdm] at h
            exact absurd h (by simp)
          | some af =>
            rw [hdm] at h
            dsimp only at h
            cases h
            exact holdsLockB_after_granted s.locks key txnId .exclusive locks1 hacq
  · intro s txnId key v s₁ h
    unfold read at h
    cases hl : List.lookup txnId s.txns with
    | none =>
      rw [hl] at h
      exact absurd h (by simp)
    | some txn =>
      rw [hl] at h
      dsimp only at h
      by_cases hst : (txn.status != TxnStatus.active) = true
      · rw [if_pos hst] at h
        exact absurd h (by simp)
      · rw [if_neg hst] at h
        rcases hacq : acquireLock s.locks key txnId LockMode.shared with ⟨outcome, locks1⟩
        rw [hacq] at h
        cases outcome with
        | queued => exact absurd h (by simp)
        | granted =>
          dsimp only at h
          have hold := holdsLockB_after_granted s.locks key txnId .shared locks1 hacq
          cases hlast : (txnPending s.wal txnId txn.startLSN key).getLast? with
          | some lastE =>
            rw [hlast] at h
            dsimp only at h
            by_cases hop : (lastE.operation == OpName.DELETE) = true
            · rw [if_pos hop] at h
              cases h
              exact hold
            · rw [if_neg hop] at h
              cases h
              exact hold
          | none =>
            rw [hlast] at h
            dsimp only at h
            cases hf : s.files key with
            | absent =>
              rw [hf] at h
              cases h
              exact hold
            | empty =>
              rw [hf] at h
              cases h
              exact hold
            | corrupt =>
              rw [hf] at h
              exact absurd h (by simp)
            | val w =>
              rw [hf] at h
              cases h
              exact hold
  · intro s txnId key s₁ h
    unfold delete at h
    cases hl : List.lookup txnId s.txns with
    | none =>
      rw [hl] at h
      exact absurd h (by simp)
    | some txn =>
      rw [hl] at h
      dsimp only at h
      by_cases hst : (txn.status != TxnStatus.active) = true
      · rw [if_pos hst] at h
        exact absurd h (by simp)
      · rw [if_neg hst] at h
        rcases hacq : acquireLock s.locks key txnId LockMode.exclusive with ⟨outcome, locks1⟩
        rw [hacq] at h
        cases outcome with
        | queued => exact absurd h (by simp)
        | granted =>
          dsimp only at h
          cases h
          exact holdsLockB_after_granted s.locks key txnId .exclusive locks1 hacq
  · intro s txnId key e s₁ h he hnd hw
    unfold read at h
    cases hl : List.lookup txnId s.txns with
    | none =>
      rw [hl] at h
      cases h
      exact absurd rfl he
    | some txn =>
      rw [hl] at h
      dsimp only at h
      by_cases hst : (txn.status != TxnStatus.active) = true
      · rw [if_pos hst] at h
        cases h
        exact absurd rfl he
      · rw [if_neg hst] at h
        rcases hacq : acquireLock s.locks key txnId LockMode.shared with ⟨outcome, locks1⟩
        rw [hacq] at h
        cases outcome with
        | queued => exact absurd h (by simp)
        | granted =>
          dsimp only at h
          cases hlast : (txnPending s.wal txnId txn.startLSN key).getLast? with
          | some lastE =>
            rw [hlast] at h
            dsimp only at h
            by_cases hop : (lastE.operation == OpName.DELETE) = true
            · rw [if_pos hop] at h
              exact absurd h (by simp)
            · rw [if_neg hop] at h
              exact absurd h (by simp)
          | none =>
            rw [hlast] at h
            dsimp only at h
            cases hf : s.files key with
            | absent =>
              rw [hf] at h
              exact absurd h (by simp)
            | empty =>
              rw [hf] at h
              exact absurd h (by simp)
            | val w =>
              rw [hf] at h
              exact absurd h (by simp)
            | corrupt =>
              rw [hf] at h
              cases h
              refine ⟨rfl, ?_⟩
              dsimp only
              exact releaseLock_removes_holder locks1 key txnId
                (nodup_after_granted s.locks key txnId .shared locks1 hacq hnd)
                (waitingB_after_granted s.locks key txnId .shared locks1 hacq hw)

  · intro locks key t u info locks1 hlk hcu hut hacq
    have hcm : u ∈ info.holders := by simpa using hcu
    have hshape : acquireLock locks key u .exclusive =
        (.granted, lockSet locks key
          { info with mode := .exclusive, holders := [u] }) := by
      unfold acquireLock
      rw [hlk]
      dsimp only
      rw [if_pos (by simp [canGrantLock, hcm]), if_neg (by simp)]
    rw [hshape] at hacq
    simp only [Prod.mk.injEq] at hacq
    unfold holdsLockB lockLookup
    rw [← hacq.2]
    unfold lockSet
    rw [mapSet_lookup_self]
    dsimp only
    have : t ∉ [u] := by
      simp only [List.mem_singleton]
      exact Ne.symm hut
    simpa using this

/-- A data directory whose file for the key doc is unparseable. -/
def filesCorruptDoc : Files :=
  fun k => if k == "doc" then FileContent.corrupt else FileContent.absent

/-- Engine with the corrupt doc file and an active transaction t1. -/
def stateCorruptT1 : EngineState :=
  (beginTransaction
    { wal := walInit (some []), locks := [], files := filesCorruptDoc, txns := [] }
    "t1").2

theorem claim_C2_witness :
    (read stateActiveT1 "t1" "k" =
      .ok JSValue.null ((read stateActiveT1 "t1" "k").state)) ∧
    holdsLockB (read stateActiveT1 "t1" "k").state.locks "k" "t1" = true ∧
    (read stateCorruptT1 "t1" "doc" =
      .err (.readFailed "doc") ((read stateCorruptT1 "t1" "doc").state)) ∧
    ((EngineError.readFailed "doc") ≠ .invalidTransaction "t1") ∧
    ((stateCorruptT1.locks.map Prod.fst).Nodup) ∧
    (waitingB stateCorruptT1.locks "doc" "t1" = false) ∧
    ((EngineError.readFailed "doc") = .readFailed "doc" ∧
      holdsLockB (read stateCorruptT1 "t1" "doc").state.locks "doc" "t1" = false) ∧
    (lockLookup [("k", ⟨LockMode.shared, ["t1", "t2"], []⟩)] "k" =
      some ⟨LockMode.shared, ["t1", "t2"], []⟩) ∧
    ((⟨LockMode.shared, ["t1", "t2"], []⟩ : LockInfo).holders.contains "t2" = true) ∧
    (("t2" : String) ≠ "t1") ∧
    (acquireLock [("k", ⟨LockMode.shared, ["t1", "t2"], []⟩)] "k" "t2" .exclusive =
      (.granted, [("k", ⟨LockMode.exclusive, ["t2"], []⟩)])) ∧
    holdsLockB [("k", ⟨LockMode.exclusive, ["t2"], []⟩)] "k" "t1" = false :=
  ⟨rfl,
    claim_C2_lock_retention.2.1 stateActiveT1 "t1" "k" JSValue.null
      ((read stateActiveT1 "t1" "k").state) rfl,
    rfl, by simp, by decide, rfl,
    claim_C2_lock_retention.2.2.2.1 stateCorruptT1 "t1" "doc" (.readFailed "doc")
      ((read stateCorruptT1 "t1" "doc").state) rfl (by simp) (by decide) rfl,
    rfl, rfl, by decide, rfl,
    claim_C2_lock_retention.2.2.2.2 [("k", ⟨LockMode.shared, ["t1", "t2"], []⟩)]
      "k" "t1" "t2" ⟨LockMode.shared, ["t1", "t2"], []⟩
      [("k", ⟨LockMode.exclusive, ["t2"], []⟩)] rfl rfl (by decide) rfl⟩

/-- Claim C2 counterexample: t1 is active, the doc file is unparseable;
the shared-lock acquisition inside read succeeds, yet the read throws a
read error and afterwards t1 no longer holds the lock on doc, although
t1 is still active and has neither committed nor rolled back. -/
theorem claim_C2_counterexample :
    txnStatusOf stateCorruptT1 "t1" = some .active ∧
    (acquireLock stateCorruptT1.locks "doc" "t1" .shared).1 = .granted ∧
    (read stateCorruptT1 "t1" "doc").error = some (.readFailed "doc") ∧
    holdsLockB (read stateCorruptT1 "t1" "doc").state.locks "doc" "t1" = false ∧
    txnStatusOf (read stateCorruptT1 "t1" "doc").state "t1" = some .active :=
  ⟨rfl, rfl, rfl, rfl, rfl⟩

/-- WAL sanity: every entry currently held (file or buffer) has an LSN
strictly below the next-LSN counter.  This holds for every WAL the
engine actually builds, since writeLog stamps the counter and then
increments it. -/
def walInvB (w : WALState) : Bool :=
  (walEntries w).all fun e => decide (e.lsn < w.currentLSN)

theorem getLast_of_strict_max (l : List LogEntry) (e : LogEntry)
    (hs : l.Pairwise lsnLE) (he : e ∈ l)
    (hmax : ∀ x ∈ l, x = e ∨ x.lsn < e.lsn) :
    l.getLast? = some e := by
  induction l with
  | nil => exact absurd he (List.not_mem_nil e)
  | cons a rest ih =>
    cases rest with
    | nil =>
      have : e = a := by simpa using he
      subst this
      rfl
    | cons b rest' =>
      rw [List.getLast?_cons_cons]
      have hab : lsnLE a b := (List.pairwise_cons.mp hs).1 b (by simp)
      have he' : e ∈ b :: rest' := by
        rcases List.mem_cons.mp he with h1 | h1
        · subst h1
          rcases hmax b (by simp) with h2 | h2
          · rw [h2]
            simp
          · exact absurd (Nat.lt_of_le_of_lt hab h2) (Nat.lt_irrefl _)
        · exact h1
      exact ih (List.pairwise_cons.mp hs).2 he'
        (fun x hx => hmax x (List.mem_cons_of_mem a hx))

theorem txnPending_append_getLast (w : WALState) (txnId key : String)
    (startLSN c' : Nat) (eN : LogEntry)
    (hinv : ∀ x ∈ walEntries w, x.lsn < eN.lsn)
    (htid : eN.transactionId = txnId) (hkey : eN.key = some key)
    (hop : (eN.operation == OpName.WRITE || eN.operation == OpName.DELETE) = true)
    (hstart : startLSN ≤ eN.lsn) :
    (txnPending { w with currentLSN := c', buffer := w.buffer ++ [eN] }
      txnId startLSN key).getLast? = some eN := by
  set wN : WALState := { w with currentLSN := c', buffer := w.buffer ++ [eN] } with hwN
  set L : List LogEntry :=
    (wN.buffer.filter (keepFrom (some startLSN)) ++
      (goodEntries wN.file).filter (keepFrom (some startLSN))) with hL
  have hLspec : ∀ x ∈ L, x = eN ∨ x ∈ walEntries w := by
    intro x hx
    rcases List.mem_append.mp hx with h1 | h1
    · have : x ∈ wN.buffer := List.mem_of_mem_filter h1
      rcases List.mem_append.mp this with h2 | h2
      · exact Or.inr (List.mem_append.mpr (Or.inr h2))
      · exact Or.inl (by simpa using h2)
    · have : x ∈ goodEntries wN.file := List.mem_of_mem_filter h1
      exact Or.inr (List.mem_append.mpr (Or.inl this))
  have heL : eN ∈ L := by
    refine List.mem_append.mpr (Or.inl (List.mem_filter.mpr ⟨by simp, ?_⟩))
    unfold keepFrom
    simpa using hstart
  have hP : (fun e => e.transactionId == txnId && e.key == some key &&
      (e.operation == OpName.WRITE || e.operation == OpName.DELETE)) eN = true := by
    simp only [htid, hkey, hop]
    simp
  set M : List LogEntry :=
    (getLogEntries wN (some startLSN)).filter
      (fun e => e.transactionId == txnId && e.key == some key &&
        (e.operation == OpName.WRITE || e.operation == OpName.DELETE)) with hM
  have hMsorted : M.Pairwise lsnLE :=
    List.Pairwise.sublist (List.filter_sublist _) (List.sorted_insertionSort lsnLE L)
  have hMsub : ∀ x ∈ M, x ∈ L := by
    intro x hx
    have := List.mem_of_mem_filter hx
    exact (List.perm_insertionSort lsnLE L).mem_iff.mp this
  have heM : eN ∈ M := by
    refine List.mem_filter.mpr ⟨?_, hP⟩
    exact (List.perm_insertionSort lsnLE L).mem_iff.mpr heL
  have hmax : ∀ x ∈ M, x = eN ∨ x.lsn < eN.lsn := by
    intro x hx
    rcases hLspec x (hMsub x hx) with h1 | h1
    · exact Or.inl h1
    · exact Or.inr (hinv x h1)
  exact getLast_of_strict_max M eN hMsorted heM hmax

theorem acquireLock_holder_granted (locks : LockTable) (key txnId : String)
    (mode : LockMode) (info : LockInfo)
    (hlk : lockLookup locks key = some info)
    (hc : info.holders.contains txnId = true) :
    (acquireLock locks key txnId mode).1 = .granted := by
  unfold acquireLock
  rw [hlk]
  dsimp only
  have hcm : txnId ∈ info.holders := by simpa using hc
  rw [if_pos (by simp [canGrantLock, hcm])]
  split <;> rfl

/-- A read whose transaction has a pending WRITE as its most recent
in-transaction effect returns that entry's truthy after-image and keeps
the granted lock. -/
theorem read_after_pending_write (s₁ : EngineState) (txnId key : String)
    (txn1 : Txn) (af : JSValue) (eN : LogEntry) (locks2 : LockTable)
    (hl1 : List.lookup txnId s₁.txns = some txn1)
    (hst1 : (txn1.status == TxnStatus.active) = true)
    (hacq2 : acquireLock s₁.locks key txnId .shared = (.granted, locks2))
    (hlast : (txnPending s₁.wal txnId txn1.startLSN key).getLast? = some eN)
    (hopW : (eN.operation == OpName.DELETE) = false)
    (hai : eN.afterImage = some af)
    (htruthy : truthy af = true) :
    read s₁ txnId key = .ok af { s₁ with locks := locks2 } := by
  unfold read
  rw [hl1]
  dsimp only
  rw [if_neg (by simp [bne, hst1]), hacq2]
  dsimp only
  rw [hlast]
  dsimp only
  rw [if_neg (by simp [hopW]), hai]
  unfold jsOr
  dsimp only
  rw [if_pos htruthy]

/-- Claim C5 (amended): for every active transaction, key and TRUTHY
patch p (any object or array, and every truthy primitive), write(T,k,p)
followed by read(T,k) returns deepMerge(v or-else the empty object, p),
where v is the value visible to T for k immediately before the write;
moreover when p is not a plain object (truthy primitive or array) this
value is exactly deepMerge(v, p), so the claim's unguarded identity
holds there too, and the or-else-empty-object guard on the merge target
only matters for object patches over a falsy visible value.  For FALSY
patches the identity fails: the read path coerces the falsy stored
after-image to the empty object (see the counterexample). -/
theorem claim_C5_write_read_roundtrip (s : EngineState) (txnId key : String)
    (p : JSValue) (txn : Txn) (locks1 : LockTable)
    (hl : List.lookup txnId s.txns = some txn)
    (hst : (txn.status == TxnStatus.active) = true)
    (hp : truthy p = true)
    (hinv : walInvB s.wal = true)
    (hstart : txn.startLSN ≤ s.wal.currentLSN)
    (hlen : s.wal.buffer.length + 1 < BUFFER_SIZE)
    (hacq : acquireLock s.locks key txnId .exclusive = (.granted, locks1)) :
    ∃ s₁ v s₂,
      write s txnId key p = .ok () s₁ ∧
      read s₁ txnId key = .ok v s₂ ∧
      deepMerge (jsOrV (visibleForWrite s.wal s.files txnId txn.startLSN key)
        (.obj [])) p = some v ∧
      (isPlainObj p = false →
        deepMerge (visibleForWrite s.wal s.files txnId txn.startLSN key) p =
          some v) := by
  have hbne : ¬((txn.status != TxnStatus.active) = true) := by simp [bne, hst]
  have hne : jsOrV (visibleForWrite s.wal s.files txnId txn.startLSN key)
      (.obj []) ≠ JSValue.null := jsOrV_ne_null _ _ (by simp)
  have hsome := deepMerge_isSome _ p hne
  cases hdm : deepMerge (jsOrV (visibleForWrite s.wal s.files txnId txn.startLSN key)
      (.obj [])) p with
  | none =>
    rw [hdm] at hsome
    simp at hsome
  | some af =>
    have haf : truthy af = true := deepMerge_truthy_source _ p af hp hdm
    obtain ⟨info, hset, hcont, _⟩ :=
      acquireLock_granted_shape s.locks key txnId .exclusive locks1 hacq
    have hlk1 : lockLookup locks1 key = some info := by
      rw [hset]
      exact mapSet_lookup_self _ _ _
    rcases hacq2 : acquireLock locks1 key txnId LockMode.shared with ⟨outcome2, locks2⟩
    have hg2 := acquireLock_holder_granted locks1 key txnId .shared info hlk1 hcont
    rw [hacq2] at hg2
    cases outcome2 with
    | queued => simp at hg2
    | granted =>
      have hwl := writeLog_noflush s.wal
        { operation := .WRITE, transactionId := txnId, key := some key,
          beforeImage := some (visibleForWrite s.wal s.files txnId txn.startLSN key),
          afterImage := some af } rfl rfl hlen
      have hinv' : ∀ x ∈ walEntries s.wal, x.lsn < s.wal.currentLSN := fun x hx =>
        of_decide_eq_true (List.all_eq_true.mp hinv x hx)
      have hlast := txnPending_append_getLast s.wal txnId key txn.startLSN
        (s.wal.currentLSN + 1)
        { lsn := s.wal.currentLSN, transactionId := txnId, operation := .WRITE,
          key := some key,
          beforeImage := some (visibleForWrite s.wal s.files txnId txn.startLSN key),
          afterImage := some af }
        hinv' rfl rfl rfl hstart
      refine ⟨{ s with
          locks := locks1,
          wal := { s.wal with
            currentLSN := s.wal.currentLSN + 1,
            buffer := s.wal.buffer ++
              [{ lsn := s.wal.currentLSN, transactionId := txnId,
                 operation := .WRITE, key := some key,
                 beforeImage := some (visibleForWrite s.wal s.files txnId
                   txn.startLSN key),
                 afterImage := some af }] },
          txns := txnSet s.txns txnId
            { txn with operations := txn.operations ++ [(key, .write)] } },
        af,
        { s with
          locks := locks2,
          wal := { s.wal with
            currentLSN := s.wal.currentLSN + 1,
            buffer := s.wal.buffer ++
              [{ lsn := s.wal.currentLSN, transactionId := txnId,
                 operation := .WRITE, key := some key,
                 beforeImage := some (visibleForWrite s.wal s.files txnId
                   txn.startLSN key),
                 afterImage := some af }] },
          txns := txnSet s.txns txnId
            { txn with operations := txn.operations ++ [(key, .write)] } },
        ?_, ?_, rfl, ?_⟩
      · unfold write
        rw [hl]
        dsimp only
        rw [if_neg hbne, hacq]
        dsimp only
        rw [hdm]
        dsimp only
        rw [hwl]
        rfl
      · exact read_after_pending_write _ txnId key
          { txn with operations := txn.operations ++ [(key, .write)] } af _ locks2
          (mapSet_lookup_self _ _ _) hst hacq2 hlast rfl rfl haf
      · intro hnp
        have hn : p ≠ JSValue.null := by
          intro he
          rw [he] at hp
          simp [truthy] at hp
        rw [deepMerge_nonobj_source (jsOrV (visibleForWrite s.wal s.files txnId
          txn.startLSN key) (.obj [])) p hnp hn] at hdm
        rw [deepMerge_nonobj_source (visibleForWrite s.wal s.files txnId
          txn.startLSN key) p hnp hn]
        exact hdm

theorem claim_C5_witness :
    List.lookup "t1" stateActiveT1.txns = some ⟨"t1", 1, [], .active⟩ ∧
    ((⟨"t1", 1, [], .active⟩ : Txn).status == TxnStatus.active) = true ∧
    truthy (.obj [("a", .num 1)]) = true ∧
    truthy (.num 5) = true ∧
    walInvB stateActiveT1.wal = true ∧
    (⟨"t1", 1, [], .active⟩ : Txn).startLSN ≤ stateActiveT1.wal.currentLSN ∧
    stateActiveT1.wal.buffer.length + 1 < BUFFER_SIZE ∧
    acquireLock stateActiveT1.locks "k" "t1" .exclusive =
      (.granted, [("k", ⟨.exclusive, ["t1"], []⟩)]) ∧
    (∃ s₁ v s₂,
      write stateActiveT1 "t1" "k" (.obj [("a", .num 1)]) = .ok () s₁ ∧
      read s₁ "t1" "k" = .ok v s₂ ∧
      deepMerge (jsOrV (visibleForWrite stateActiveT1.wal stateActiveT1.files
        "t1" (⟨"t1", 1, [], .active⟩ : Txn).startLSN "k") (.obj []))
        (.obj [("a", .num 1)]) = some v ∧
      (isPlainObj (.obj [("a", .num 1)]) = false →
        deepMerge (visibleForWrite stateActiveT1.wal stateActiveT1.files
          "t1" (⟨"t1", 1, [], .active⟩ : Txn).startLSN "k")
          (.obj [("a", .num 1)]) = some v)) ∧
    (∃ s₁ v s₂,
      write stateActiveT1 "t1" "k" (.num 5) = .ok () s₁ ∧
      read s₁ "t1" "k" = .ok v s₂ ∧
      deepMerge (jsOrV (visibleForWrite stateActiveT1.wal stateActiveT1.files
        "t1" (⟨"t1", 1, [], .active⟩ : Txn).startLSN "k") (.obj []))
        (.num 5) = some v ∧
      (isPlainObj (.num 5) = false →
        deepMerge (visibleForWrite stateActiveT1.wal stateActiveT1.files
          "t1" (⟨"t1", 1, [], .active⟩ : Txn).startLSN "k")
          (.num 5) = some v)) :=
  ⟨rfl, rfl, rfl, by decide, rfl, by decide, by decide, rfl,
    claim_C5_write_read_roundtrip stateActiveT1 "t1" "k" (.obj [("a", .num 1)])
      ⟨"t1", 1, [], .active⟩ [("k", ⟨.exclusive, ["t1"], []⟩)]
      rfl rfl rfl rfl (by decide) (by decide) rfl,
    claim_C5_write_read_roundtrip stateActiveT1 "t1" "k" (.num 5)
      ⟨"t1", 1, [], .active⟩ [("k", ⟨.exclusive, ["t1"], []⟩)]
      rfl rfl (by decide) rfl (by decide) (by decide) rfl⟩

/-- State after t1 wrote the primitive patch 0 to key k. -/
def stateAfterWrite0 : EngineState :=
  (write stateActiveT1 "t1" "k" (.num 0)).state

/-- Claim C5 counterexample: the claim quantifies over every patch;
with the primitive patch 0 on an absent key, the visible value is null
and deepMerge(null, 0) is 0, but the subsequent read returns the empty
object, because the read path coerces the falsy stored after-image with
an or-else-empty-object guard. -/
theorem claim_C5_counterexample :
    (write stateActiveT1 "t1" "k" (.num 0)).isOk = true ∧
    visibleForWrite stateActiveT1.wal stateActiveT1.files "t1" 1 "k" =
      JSValue.null ∧
    deepMerge JSValue.null (.num 0) = some (.num 0) ∧
    (read stateAfterWrite0 "t1" "k").value = some (.obj []) ∧
    (JSValue.obj [] : JSValue) ≠ .num 0 :=
  ⟨rfl, rfl, rfl, rfl, by simp⟩

end Tero
